import Mathlib

/-!
# Paging memory management of the OS simulator: `mm.c` and `mm-memphy.c`

A shallow embedding of the page-table-entry codec, the physical memory device
and the frame allocator, followed by the properties proved about them.

Conventions of the embedding.
* C `int` values are `Int`; `uint32_t` values are `Nat` kept below `2 ^ 32`;
  a `BYTE` is a `Nat` that is only ever moved, never computed with.  The region
  end that `vmap_page_range` computes from caller-supplied `int`s is reduced to
  32-bit two's complement with `int32`.
* A C function that returns a status code and writes through pointers becomes a
  function that returns the status code together with the new values.
* The header `mm.h` is not part of the sources at hand.  Everything it fixes
  (frame size, bit positions of the entry fields, bit positions of the page
  number inside an address) is collected in `PagingCfg` and is a parameter of
  every definition that needs it.
* `malloc` is taken to succeed; memory that `malloc` leaves uninitialised is an
  explicit parameter of the function that allocates it.
-/

namespace OsMm

/-! ## Configuration fixed by `mm.h` -/

/-- Constants of `mm.h`: the frame size and the bit layout of entries and addresses. -/
structure PagingCfg where
  /-- Frame (and page) size in bytes: `PAGING_PAGESZ`. -/
  PAGING_PAGESZ : Nat
  /-- Bit index of `PAGING_PTE_PRESENT_MASK`. -/
  presentBit : Nat
  /-- Bit index of `PAGING_PTE_SWAPPED_MASK`. -/
  swappedBit : Nat
  PAGING_PTE_FPN_LOBIT : Nat
  PAGING_PTE_FPN_HIBIT : Nat
  PAGING_PTE_SWPTYP_LOBIT : Nat
  PAGING_PTE_SWPTYP_HIBIT : Nat
  PAGING_PTE_SWPOFF_LOBIT : Nat
  PAGING_PTE_SWPOFF_HIBIT : Nat
  PAGING_ADDR_PGN_LOBIT : Nat
  PAGING_ADDR_PGN_HIBIT : Nat
  deriving DecidableEq, Repr

/-- Modelled from the spec: `BIT(n)` of the absent `mm.h`, the word with only bit `n` set. -/
def BIT (n : Nat) : Nat := 2 ^ n

/-- Modelled from the spec: `GENMASK(h, l)` of the absent `mm.h`, the word with
exactly the bits `l .. h` set. -/
def GENMASK (h l : Nat) : Nat := (2 ^ (h + 1 - l) - 1) <<< l

def PagingCfg.PAGING_PTE_PRESENT_MASK (c : PagingCfg) : Nat := BIT c.presentBit

def PagingCfg.PAGING_PTE_SWAPPED_MASK (c : PagingCfg) : Nat := BIT c.swappedBit

def PagingCfg.PAGING_PTE_FPN_MASK (c : PagingCfg) : Nat :=
  GENMASK c.PAGING_PTE_FPN_HIBIT c.PAGING_PTE_FPN_LOBIT

def PagingCfg.PAGING_PTE_SWPTYP_MASK (c : PagingCfg) : Nat :=
  GENMASK c.PAGING_PTE_SWPTYP_HIBIT c.PAGING_PTE_SWPTYP_LOBIT

def PagingCfg.PAGING_PTE_SWPOFF_MASK (c : PagingCfg) : Nat :=
  GENMASK c.PAGING_PTE_SWPOFF_HIBIT c.PAGING_PTE_SWPOFF_LOBIT

def PagingCfg.PAGING_PGN_MASK (c : PagingCfg) : Nat :=
  GENMASK c.PAGING_ADDR_PGN_HIBIT c.PAGING_ADDR_PGN_LOBIT

/-- Number of values a field with bits `lo .. hi` can hold. -/
def fieldCard (hi lo : Nat) : Nat := 2 ^ (hi + 1 - lo)

/-- The layout is usable: every field lies inside the 32-bit word, the flag bits
are distinct and outside the value fields, and the two swap fields do not overlap. -/
structure PagingCfg.WF (c : PagingCfg) : Prop where
  present_lt : c.presentBit < 32
  swapped_lt : c.swappedBit < 32
  flags_ne : c.presentBit ≠ c.swappedBit
  fpn_le : c.PAGING_PTE_FPN_LOBIT ≤ c.PAGING_PTE_FPN_HIBIT
  fpn_lt : c.PAGING_PTE_FPN_HIBIT < 32
  fpn_present : c.presentBit < c.PAGING_PTE_FPN_LOBIT ∨ c.PAGING_PTE_FPN_HIBIT < c.presentBit
  fpn_swapped : c.swappedBit < c.PAGING_PTE_FPN_LOBIT ∨ c.PAGING_PTE_FPN_HIBIT < c.swappedBit
  typ_le : c.PAGING_PTE_SWPTYP_LOBIT ≤ c.PAGING_PTE_SWPTYP_HIBIT
  typ_lt : c.PAGING_PTE_SWPTYP_HIBIT < 32
  typ_present :
    c.presentBit < c.PAGING_PTE_SWPTYP_LOBIT ∨ c.PAGING_PTE_SWPTYP_HIBIT < c.presentBit
  typ_swapped :
    c.swappedBit < c.PAGING_PTE_SWPTYP_LOBIT ∨ c.PAGING_PTE_SWPTYP_HIBIT < c.swappedBit
  off_le : c.PAGING_PTE_SWPOFF_LOBIT ≤ c.PAGING_PTE_SWPOFF_HIBIT
  off_lt : c.PAGING_PTE_SWPOFF_HIBIT < 32
  off_present :
    c.presentBit < c.PAGING_PTE_SWPOFF_LOBIT ∨ c.PAGING_PTE_SWPOFF_HIBIT < c.presentBit
  off_swapped :
    c.swappedBit < c.PAGING_PTE_SWPOFF_LOBIT ∨ c.PAGING_PTE_SWPOFF_HIBIT < c.swappedBit
  typ_off :
    c.PAGING_PTE_SWPTYP_HIBIT < c.PAGING_PTE_SWPOFF_LOBIT ∨
      c.PAGING_PTE_SWPOFF_HIBIT < c.PAGING_PTE_SWPTYP_LOBIT

instance (c : PagingCfg) : Decidable c.WF :=
  decidable_of_iff
    (c.presentBit < 32 ∧ c.swappedBit < 32 ∧ c.presentBit ≠ c.swappedBit ∧
      c.PAGING_PTE_FPN_LOBIT ≤ c.PAGING_PTE_FPN_HIBIT ∧ c.PAGING_PTE_FPN_HIBIT < 32 ∧
      (c.presentBit < c.PAGING_PTE_FPN_LOBIT ∨ c.PAGING_PTE_FPN_HIBIT < c.presentBit) ∧
      (c.swappedBit < c.PAGING_PTE_FPN_LOBIT ∨ c.PAGING_PTE_FPN_HIBIT < c.swappedBit) ∧
      c.PAGING_PTE_SWPTYP_LOBIT ≤ c.PAGING_PTE_SWPTYP_HIBIT ∧ c.PAGING_PTE_SWPTYP_HIBIT < 32 ∧
      (c.presentBit < c.PAGING_PTE_SWPTYP_LOBIT ∨ c.PAGING_PTE_SWPTYP_HIBIT < c.presentBit) ∧
      (c.swappedBit < c.PAGING_PTE_SWPTYP_LOBIT ∨ c.PAGING_PTE_SWPTYP_HIBIT < c.swappedBit) ∧
      c.PAGING_PTE_SWPOFF_LOBIT ≤ c.PAGING_PTE_SWPOFF_HIBIT ∧ c.PAGING_PTE_SWPOFF_HIBIT < 32 ∧
      (c.presentBit < c.PAGING_PTE_SWPOFF_LOBIT ∨ c.PAGING_PTE_SWPOFF_HIBIT < c.presentBit) ∧
      (c.swappedBit < c.PAGING_PTE_SWPOFF_LOBIT ∨ c.PAGING_PTE_SWPOFF_HIBIT < c.swappedBit) ∧
      (c.PAGING_PTE_SWPTYP_HIBIT < c.PAGING_PTE_SWPOFF_LOBIT ∨
        c.PAGING_PTE_SWPOFF_HIBIT < c.PAGING_PTE_SWPTYP_LOBIT))
    ⟨fun ⟨a, b, c1, d, e, f, g, h, i, j, k, l, m, n, o, p⟩ =>
      ⟨a, b, c1, d, e, f, g, h, i, j, k, l, m, n, o, p⟩,
     fun ⟨a, b, c1, d, e, f, g, h, i, j, k, l, m, n, o, p⟩ =>
      ⟨a, b, c1, d, e, f, g, h, i, j, k, l, m, n, o, p⟩⟩

/-- A small layout used for concrete evaluations: frames of 4 bytes, present bit 31,
swapped bit 30, frame number in bits 0..12, swap type in bits 0..4, swap offset in
bits 5..25, page number in bits 2..21 of an address. -/
def demoCfg : PagingCfg where
  PAGING_PAGESZ := 4
  presentBit := 31
  swappedBit := 30
  PAGING_PTE_FPN_LOBIT := 0
  PAGING_PTE_FPN_HIBIT := 12
  PAGING_PTE_SWPTYP_LOBIT := 0
  PAGING_PTE_SWPTYP_HIBIT := 4
  PAGING_PTE_SWPOFF_LOBIT := 5
  PAGING_PTE_SWPOFF_HIBIT := 25
  PAGING_ADDR_PGN_LOBIT := 2
  PAGING_ADDR_PGN_HIBIT := 21

/-! ## Machine words -/

/-- Conversion of a C `int` to `uint32_t` (reduction modulo `2 ^ 32`). -/
def u32 (x : Int) : Nat := (x % 4294967296).toNat

/-- Conversion of a `uint32_t` to a C `int` (two's complement). -/
def i32 (x : Nat) : Int := if x < 2147483648 then (x : Int) else (x : Int) - 4294967296

/-- The value of an arithmetic expression of C type `int`: the mathematical value reduced
to 32-bit two's complement. -/
def int32 (x : Int) : Int := i32 (u32 x)

/-- Modelled from the spec: `SETBIT(v, mask)` of the absent `mm.h`, `v = v | mask`. -/
def SETBIT (v mask : Nat) : Nat := v ||| mask

/-- Modelled from the spec: `CLRBIT(v, mask)` of the absent `mm.h`, `v = v & ~mask`
on 32-bit words. -/
def CLRBIT (v mask : Nat) : Nat := v &&& (4294967295 ^^^ mask)

/-- Modelled from the spec: `SETVAL(v, value, mask, offst)` of the absent `mm.h`,
`v = (v & ~mask) | ((value << offst) & mask)` on 32-bit words. -/
def SETVAL (v : Nat) (value : Int) (mask offst : Nat) : Nat :=
  (v &&& (4294967295 ^^^ mask)) ||| (((u32 value <<< offst) % 4294967296) &&& mask)

/-- Modelled from the spec: `GETVAL(v, mask, offst)` of the absent `mm.h`,
`(v & mask) >> offst`. -/
def GETVAL (v mask offst : Nat) : Nat := (v &&& mask) >>> offst

/-- Modelled from the spec: `PAGING_FPN(pte)` of the absent `mm.h`, taken to be the
decoder of the frame-number field of an entry, that is, the `GETVAL` with the mask and
offset that the `SETVAL` of `pte_set_fpn` and `init_pte` uses. -/
def PAGING_FPN (c : PagingCfg) (pte : Nat) : Nat :=
  GETVAL pte c.PAGING_PTE_FPN_MASK c.PAGING_PTE_FPN_LOBIT

/-- Modelled from the spec: `PAGING_PGN(addr)` of the absent `mm.h`, the page number
field of a virtual address. -/
def PAGING_PGN (c : PagingCfg) (addr : Int) : Nat :=
  GETVAL (u32 addr) c.PAGING_PGN_MASK c.PAGING_ADDR_PGN_LOBIT

/-- The swap-type field of an entry. -/
def PAGING_SWPTYP (c : PagingCfg) (pte : Nat) : Nat :=
  GETVAL pte c.PAGING_PTE_SWPTYP_MASK c.PAGING_PTE_SWPTYP_LOBIT

/-- The swap-offset field of an entry. -/
def PAGING_SWPOFF (c : PagingCfg) (pte : Nat) : Nat :=
  GETVAL pte c.PAGING_PTE_SWPOFF_MASK c.PAGING_PTE_SWPOFF_LOBIT

/-- The present flag of an entry is set. -/
def pte_present (c : PagingCfg) (pte : Nat) : Bool :=
  (pte &&& c.PAGING_PTE_PRESENT_MASK) != 0

/-- The swapped flag of an entry is set. -/
def pte_swapped (c : PagingCfg) (pte : Nat) : Bool :=
  (pte &&& c.PAGING_PTE_SWAPPED_MASK) != 0

/-- The three states of a page table entry. -/
inductive PageTableEntry where
  | NotPresent
  | Resident (frame : Nat)
  | Swapped (swap_type swap_offset : Nat)
  deriving DecidableEq, Repr

/-- Modelled from the spec: `decode` of the entry codec; the sources only hold the
encoders.  An entry without the present flag is not present; with the swapped flag it
is swapped; otherwise it is resident in the frame of its frame-number field. -/
def decode (c : PagingCfg) (pte : Nat) : PageTableEntry :=
  if !pte_present c pte then PageTableEntry.NotPresent
  else if pte_swapped c pte then
    PageTableEntry.Swapped (PAGING_SWPTYP c pte) (PAGING_SWPOFF c pte)
  else PageTableEntry.Resident (PAGING_FPN c pte)

/-! ## `mm.c`: the entry encoders -/

/-- `init_pte`: returns the status code and the new value of `*pte`. -/
def init_pte (c : PagingCfg) (pte : Nat) (pre fpn _drt swp swptyp swpoff : Int) : Int × Nat :=
  if pre ≠ 0 then
    if swp = 0 then
      if fpn = 0 then (-1, pte)
      else
        let pte := 0
        let pte := SETBIT pte c.PAGING_PTE_PRESENT_MASK
        let pte := SETVAL pte fpn c.PAGING_PTE_FPN_MASK c.PAGING_PTE_FPN_LOBIT
        (0, pte)
    else
      let pte := 0
      let pte := SETBIT pte c.PAGING_PTE_PRESENT_MASK
      let pte := SETBIT pte c.PAGING_PTE_SWAPPED_MASK
      let pte := SETVAL pte swptyp c.PAGING_PTE_SWPTYP_MASK c.PAGING_PTE_SWPTYP_LOBIT
      let pte := SETVAL pte swpoff c.PAGING_PTE_SWPOFF_MASK c.PAGING_PTE_SWPOFF_LOBIT
      (0, pte)
  else (0, pte)

/-- `pte_set_swap`: returns the status code and the new value of `*pte`. -/
def pte_set_swap (c : PagingCfg) (_pte : Nat) (swptyp swpoff : Int) : Int × Nat :=
  let pte := 0
  let pte := SETBIT pte c.PAGING_PTE_PRESENT_MASK
  let pte := SETBIT pte c.PAGING_PTE_SWAPPED_MASK
  let pte := SETVAL pte swptyp c.PAGING_PTE_SWPTYP_MASK c.PAGING_PTE_SWPTYP_LOBIT
  let pte := SETVAL pte swpoff c.PAGING_PTE_SWPOFF_MASK c.PAGING_PTE_SWPOFF_LOBIT
  (0, pte)

/-- `pte_set_fpn`: returns the status code and the new value of `*pte`. -/
def pte_set_fpn (c : PagingCfg) (_pte : Nat) (fpn : Int) : Int × Nat :=
  let pte := 0
  let pte := SETBIT pte c.PAGING_PTE_PRESENT_MASK
  let pte := CLRBIT pte c.PAGING_PTE_SWAPPED_MASK
  let pte := SETVAL pte fpn c.PAGING_PTE_FPN_MASK c.PAGING_PTE_FPN_LOBIT
  (0, pte)

/-! ## `mm-memphy.c`: the physical memory device

An access outside an array, or through a null pointer, has no defined behaviour in C.
Functions that can perform one return an `Option`; `none` stands for such an access, so
that a result `some _` also says that every access made was inside its array. -/

/-- A byte of device storage. -/
abbrev BYTE := Nat

/-- `struct memphy_struct`: `storage` holds the `maxsz` bytes of the device and
`free_fp_list` is the linked list of free frame numbers, head first. -/
structure memphy_struct where
  storage : List BYTE
  maxsz : Int
  rdmflg : Int
  cursor : Int
  free_fp_list : List Int
  deriving DecidableEq, Repr

/-- The `while` loop of `MEMPHY_mv_csr`, run from the given cursor and step count; the
loop leaves after at most `offset - numstep` rounds, which bounds the first argument. -/
def mv_csr_loop (maxsz offset : Int) : Nat → Int → Int → Int
  | 0, cursor, _ => cursor
  | fuel + 1, cursor, numstep =>
    if numstep < offset ∧ numstep < maxsz then
      mv_csr_loop maxsz offset fuel ((cursor + 1).tmod maxsz) (numstep + 1)
    else cursor

/-- `MEMPHY_mv_csr`. -/
def MEMPHY_mv_csr (mp : memphy_struct) (offset : Int) : Int × memphy_struct :=
  if offset < 0 ∨ offset ≥ mp.maxsz then (-1, mp)
  else (0, { mp with cursor := mv_csr_loop mp.maxsz offset offset.toNat 0 0 })

/-- `MEMPHY_seq_read`: status code, the byte stored through `value` if any, new device. -/
def MEMPHY_seq_read (mp : memphy_struct) (addr : Int) :
    Option (Int × Option BYTE × memphy_struct) :=
  if mp.rdmflg = 0 ∨ addr < 0 ∨ addr ≥ mp.maxsz then some (-1, none, mp)
  else if mp.rdmflg = 0 then some (-1, none, mp)
  else
    let mp1 := (MEMPHY_mv_csr mp addr).2
    match mp1.storage[addr.toNat]? with
    | none => none
    | some b => some (0, some b, mp1)

/-- `MEMPHY_read`: status code, the byte stored through `value` if any, new device. -/
def MEMPHY_read (mp : memphy_struct) (addr : Int) :
    Option (Int × Option BYTE × memphy_struct) :=
  if mp.rdmflg = 0 ∨ addr < 0 ∨ addr ≥ mp.maxsz then some (-1, none, mp)
  else if mp.rdmflg ≠ 0 then
    match mp.storage[addr.toNat]? with
    | none => none
    | some b => some (0, some b, mp)
  else MEMPHY_seq_read mp addr

/-- The store `mp->storage[addr] = value`; `none` when `addr` is outside the storage. -/
def storeByte (mp : memphy_struct) (addr : Int) (value : BYTE) : Option memphy_struct :=
  if 0 ≤ addr ∧ addr.toNat < mp.storage.length then
    some { mp with storage := mp.storage.set addr.toNat value }
  else none

/-- `MEMPHY_seq_write`. -/
def MEMPHY_seq_write (mp : memphy_struct) (addr : Int) (value : BYTE) :
    Option (Int × memphy_struct) :=
  if mp.rdmflg = 0 ∨ addr < 0 ∨ addr ≥ mp.maxsz then some (-1, mp)
  else if mp.rdmflg = 0 then some (-1, mp)
  else
    match storeByte (MEMPHY_mv_csr mp addr).2 addr value with
    | none => none
    | some mp2 => some (0, mp2)

/-- `MEMPHY_write`. -/
def MEMPHY_write (mp : memphy_struct) (addr : Int) (data : BYTE) :
    Option (Int × memphy_struct) :=
  if mp.rdmflg ≠ 0 then
    match storeByte mp addr data with
    | none => none
    | some mp1 => some (0, mp1)
  else MEMPHY_seq_write mp addr data

/-- The `for` loop of `MEMPHY_format`.  `built` holds the nodes linked so far, from the
head to `fst`, and `next` is the list that `fst->fp_next` points to. -/
def format_loop (numfp : Int) : Nat → Int → List Int → List Int → List Int
  | 0, _, built, next => built ++ next
  | fuel + 1, iter, built, next =>
    if iter < numfp then format_loop numfp fuel (iter + 1) (built ++ [iter]) []
    else built ++ next

/-- `MEMPHY_format`.  The head node comes from `malloc` and its `fp_next` is never
assigned before the loop; `junk` is the list that this uninitialised pointer denotes. -/
def MEMPHY_format (mp : memphy_struct) (pagesz : Int) (junk : List Int) :
    Int × memphy_struct :=
  if pagesz ≤ 0 ∨ mp.maxsz.tmod pagesz ≠ 0 then (-1, mp)
  else
    let numfp := mp.maxsz.tdiv pagesz
    if numfp ≤ 0 then (-1, mp)
    else (0, { mp with free_fp_list := format_loop numfp numfp.toNat 1 [0] junk })

/-- `MEMPHY_get_freefp`: status code, the frame number stored through `retfpn` if any,
new device. -/
def MEMPHY_get_freefp (mp : memphy_struct) : Int × Option Int × memphy_struct :=
  match mp.free_fp_list with
  | [] => (-1, none, mp)
  | fpn :: fp_next => (0, some fpn, { mp with free_fp_list := fp_next })

/-- `MEMPHY_put_freefp`. -/
def MEMPHY_put_freefp (mp : memphy_struct) (fpn : Int) : Int × memphy_struct :=
  if fpn < 0 ∨ fpn ≥ mp.maxsz then (-1, mp)
  else (0, { mp with free_fp_list := fpn :: mp.free_fp_list })

/-- `init_memphy`.  `raw` is the content of the block `malloc` returns for the storage
and `junk` the uninitialised link of `MEMPHY_format`. -/
def init_memphy (c : PagingCfg) (mp : memphy_struct) (max_size randomflg : Int)
    (raw : List BYTE) (junk : List Int) : Int × memphy_struct :=
  if max_size ≤ 0 then (-1, mp)
  else
    let mp := { mp with storage := raw }
    let mp := { mp with maxsz := max_size }
    let mp := (MEMPHY_format mp c.PAGING_PAGESZ junk).2
    let mp := { mp with rdmflg := if randomflg ≠ 0 then 1 else 0 }
    let mp := if mp.rdmflg = 0 then { mp with cursor := 0 } else mp
    (0, mp)

/-! ## `mm.c`: address spaces, allocation and mapping -/

/-- `struct vm_rg_struct`, a region `[rg_start, rg_end)`. -/
structure vm_rg_struct where
  rg_start : Int
  rg_end : Int
  deriving DecidableEq, Repr

/-- `struct mm_struct`, restricted to the fields the embedded functions touch: the page
directory `pgd` and the replacement history `fifo_pgn`, newest first. -/
structure mm_struct where
  pgd : List Nat
  fifo_pgn : List Nat
  deriving DecidableEq, Repr

/-- `struct pcb_t`, restricted to the fields the embedded functions touch. -/
structure pcb_t where
  mram : memphy_struct
  active_mswp : memphy_struct
  mm : mm_struct
  deriving DecidableEq, Repr

/-- Modelled from the spec: `find_victim_page` of the absent `mm-vm.c`, the external
victim-selection policy `select_victim(address_space) -> Option<page_number>`.  A policy
offers a page or nothing; one that consumes the entry it offers hands back the
replacement history it leaves.  `none` is the return value `-1`, which leaves the
address space as it is. -/
abbrev VictimPolicy := mm_struct → Option (Nat × List Nat)

/-- `enlist_pgn_node`. -/
def enlist_pgn_node (plist : List Nat) (pgn : Nat) : Int × List Nat :=
  (0, pgn :: plist)

/-- The `for` loop of `__swap_cp_page` over any state `σ` reached through the two device
pointers: `rd` is `MEMPHY_read(mpsrc, ..)`, `wr` is `MEMPHY_write(mpdst, ..)`.  The first
argument counts the rounds left, `cellidx` is the loop variable, and `junk cellidx` is
the content of the uninitialised local `data` of that round. -/
def swap_cp_loop {σ : Type} (rd : σ → Int → Option (Int × Option BYTE × σ))
    (wr : σ → Int → BYTE → Option (Int × σ)) (c : PagingCfg) (srcfpn dstfpn : Int)
    (junk : Nat → BYTE) : Nat → Nat → σ → Option σ
  | 0, _, s => some s
  | k + 1, cellidx, s =>
    let addrsrc := srcfpn * c.PAGING_PAGESZ + cellidx
    let addrdst := dstfpn * c.PAGING_PAGESZ + cellidx
    match rd s addrsrc with
    | none => none
    | some (_, value, s1) =>
      let data := value.getD (junk cellidx)
      match wr s1 addrdst data with
      | none => none
      | some (_, s2) => swap_cp_loop rd wr c srcfpn dstfpn junk k (cellidx + 1) s2

/-- `__swap_cp_page` for two different devices: status code, source, destination. -/
def __swap_cp_page (c : PagingCfg) (junk : Nat → BYTE) (mpsrc : memphy_struct)
    (srcfpn : Int) (mpdst : memphy_struct) (dstfpn : Int) :
    Option (Int × memphy_struct × memphy_struct) :=
  match swap_cp_loop
      (fun s addr => (MEMPHY_read s.1 addr).map fun r => (r.1, r.2.1, (r.2.2, s.2)))
      (fun s addr data => (MEMPHY_write s.2 addr data).map fun r => (r.1, (s.1, r.2)))
      c srcfpn dstfpn junk c.PAGING_PAGESZ 0 (mpsrc, mpdst) with
  | none => none
  | some s => some (0, s.1, s.2)

/-- `__swap_cp_page` when both pointers name the same device: status code, device. -/
def __swap_cp_page_same (c : PagingCfg) (junk : Nat → BYTE) (mp : memphy_struct)
    (srcfpn dstfpn : Int) : Option (Int × memphy_struct) :=
  match swap_cp_loop MEMPHY_read MEMPHY_write c srcfpn dstfpn junk c.PAGING_PAGESZ 0 mp with
  | none => none
  | some s => some (0, s)

/-- The `for` loop of `alloc_pages_range`; the first argument counts the rounds left
(the loop variable `pgit` is not used by the body).  Result: status code, process,
`*frm_lst`. -/
def alloc_loop (c : PagingCfg) (find_victim_page : VictimPolicy) (junk : Nat → BYTE) :
    Nat → pcb_t → List Int → Option (Int × pcb_t × List Int)
  | 0, caller, frm_lst => some (0, caller, frm_lst)
  | k + 1, caller, frm_lst =>
    match MEMPHY_get_freefp caller.mram with
    | (0, some fpn, mram1) =>
      alloc_loop c find_victim_page junk k { caller with mram := mram1 } (fpn :: frm_lst)
    | _ =>
      match find_victim_page caller.mm with
      | none => if frm_lst = [] then some (-1, caller, frm_lst) else some (-3000, caller, [])
      | some (vicpgn, fifo1) =>
        let caller := { caller with mm := { caller.mm with fifo_pgn := fifo1 } }
        match MEMPHY_get_freefp caller.active_mswp with
        | (0, some swpfpn, mswp1) =>
          let caller := { caller with active_mswp := mswp1 }
          match caller.mm.pgd[vicpgn]? with
          | none => none
          | some vicpte =>
            let vicfpn := i32 (PAGING_FPN c vicpte)
            match __swap_cp_page c junk caller.mram vicfpn caller.active_mswp swpfpn with
            | none => none
            | some (_, mram2, mswp2) =>
              let pgd1 := caller.mm.pgd.set vicpgn (pte_set_swap c vicpte 0 swpfpn).2
              alloc_loop c find_victim_page junk k
                { mram := mram2, active_mswp := mswp2, mm := { caller.mm with pgd := pgd1 } }
                (vicfpn :: frm_lst)
        | _ =>
          if frm_lst = [] then some (-1, caller, frm_lst) else some (-3000, caller, [])

/-- `alloc_pages_range`: status code, process, `*frm_lst`. -/
def alloc_pages_range (c : PagingCfg) (find_victim_page : VictimPolicy) (junk : Nat → BYTE)
    (caller : pcb_t) (req_pgnum : Int) (frm_lst : List Int) :
    Option (Int × pcb_t × List Int) :=
  alloc_loop c find_victim_page junk req_pgnum.toNat caller frm_lst

/-- The `for` loop of `vmap_page_range`; the first argument counts the rounds left and
`pgit` is the loop variable.  Reading `fpit->fpn` from an empty list is a null
dereference. -/
def vmap_loop (c : PagingCfg) (pgn : Nat) : Nat → Nat → mm_struct → List Int → Option mm_struct
  | 0, _, mm, _ => some mm
  | k + 1, pgit, mm, frames =>
    match frames with
    | [] => none
    | fpn :: fp_next =>
      match mm.pgd[pgn + pgit]? with
      | none => none
      | some pte =>
        let pgd1 := mm.pgd.set (pgn + pgit) (pte_set_fpn c pte fpn).2
        let fifo1 := (enlist_pgn_node mm.fifo_pgn (pgn + pgit)).2
        vmap_loop c pgn k (pgit + 1) { pgd := pgd1, fifo_pgn := fifo1 } fp_next

/-- `vmap_page_range`: status code, `*ret_rg`, process.  The end of the region is the
`int` expression `addr + pgnum * PAGING_PAGESZ`, product and sum each in 32 bits. -/
def vmap_page_range (c : PagingCfg) (caller : pcb_t) (addr pgnum : Int) (frames : List Int)
    (_ret_rg : vm_rg_struct) : Option (Int × vm_rg_struct × pcb_t) :=
  let pgn := PAGING_PGN c addr
  let ret_rg : vm_rg_struct :=
    { rg_start := addr, rg_end := int32 (addr + int32 (pgnum * c.PAGING_PAGESZ)) }
  match vmap_loop c pgn pgnum.toNat 0 caller.mm frames with
  | none => none
  | some mm1 => some (0, ret_rg, { caller with mm := mm1 })

/-- `vm_map_ram`: status code, `*ret_rg`, process. -/
def vm_map_ram (c : PagingCfg) (find_victim_page : VictimPolicy) (junk : Nat → BYTE)
    (caller : pcb_t) (_astart _aend mapstart incpgnum : Int) (ret_rg : vm_rg_struct) :
    Option (Int × vm_rg_struct × pcb_t) :=
  match alloc_pages_range c find_victim_page junk caller incpgnum [] with
  | none => none
  | some (ret_alloc, caller1, frm_lst) =>
    if ret_alloc < 0 then some (-1, ret_rg, caller1)
    else
      match vmap_page_range c caller1 mapstart incpgnum frm_lst ret_rg with
      | none => none
      | some (_, rg, caller2) => some (0, rg, caller2)

/-! ## Vocabulary of the statements -/

/-- The entry that `init_pte` builds for a resident page. -/
def residentEntry (c : PagingCfg) (fpn : Int) : Nat :=
  SETVAL (SETBIT 0 c.PAGING_PTE_PRESENT_MASK) fpn c.PAGING_PTE_FPN_MASK c.PAGING_PTE_FPN_LOBIT

/-- The entry that `pte_set_swap` builds. -/
def swappedEntry (c : PagingCfg) (swptyp swpoff : Int) : Nat :=
  SETVAL
    (SETVAL (SETBIT (SETBIT 0 c.PAGING_PTE_PRESENT_MASK) c.PAGING_PTE_SWAPPED_MASK) swptyp
      c.PAGING_PTE_SWPTYP_MASK c.PAGING_PTE_SWPTYP_LOBIT)
    swpoff c.PAGING_PTE_SWPOFF_MASK c.PAGING_PTE_SWPOFF_LOBIT

/-- A two-frame random-mode device (frames of 4 bytes) holding the bytes 1..8. -/
def demoSrc : memphy_struct := ⟨[1, 2, 3, 4, 5, 6, 7, 8], 8, 1, 0, []⟩

/-- A three-frame random-mode device: an all-zero frame, an all-`0xFF` frame, a frame of 9s. -/
def demoDst : memphy_struct := ⟨[0, 0, 0, 0, 255, 255, 255, 255, 9, 9, 9, 9], 12, 1, 0, [0]⟩

/-- Modelled from the spec: the FIFO-style default policy, "evict the page that entered
`replacement_history` earliest".  The history is newest first, so the victim is its
last entry, which the policy removes from the history. -/
def fifoPolicy : VictimPolicy := fun mm =>
  match mm.fifo_pgn.getLast? with
  | none => none
  | some pgn => some (pgn, mm.fifo_pgn.dropLast)

/-- The policy that never offers a page. -/
def noVictim : VictimPolicy := fun _ => none

/-- A fresh process for concrete evaluations: a two-frame RAM device holding the bytes
1..8 with pool `0, 1`, a one-frame swap device with pool `0`, a page directory of four
entries none of which is present, and an empty replacement history. -/
def demoProc0 : pcb_t :=
  { mram := ⟨[1, 2, 3, 4, 5, 6, 7, 8], 8, 1, 0, [0, 1]⟩
    active_mswp := ⟨[0, 0, 0, 0], 4, 1, 0, [0]⟩
    mm := ⟨[0, 0, 0, 0], []⟩ }

/-- The process `demoProc0` after `vm_map_ram` has mapped pages 0 and 1: page 0 is in
frame 1, page 1 in frame 0, the RAM pool is empty and the history is `1, 0`. -/
def demoProc1 : pcb_t :=
  { mram := ⟨[1, 2, 3, 4, 5, 6, 7, 8], 8, 1, 0, []⟩
    active_mswp := ⟨[0, 0, 0, 0], 4, 1, 0, [0]⟩
    mm := ⟨[2147483649, 2147483648, 0, 0], [1, 0]⟩ }

/-- The process `demoProc1` with a swap device whose pool is empty. -/
def demoProcSwapFull : pcb_t :=
  { demoProc1 with active_mswp := ⟨[0, 0, 0, 0], 4, 1, 0, []⟩ }

/-- The RAM frame an entry binds, when the entry is resident. -/
def residentFrame (c : PagingCfg) (pte : Nat) : Option Int :=
  match decode c pte with
  | PageTableEntry.Resident f => some (f : Int)
  | _ => none

/-- The frames referenced by the resident entries of a page directory, in page order and
with repetitions. -/
def residentFrames (c : PagingCfg) (pgd : List Nat) : List Int :=
  pgd.filterMap (residentFrame c)

/-- Number of frames of a device: `maxsz / frame_size`. -/
def numFrames (c : PagingCfg) (mp : memphy_struct) : Nat :=
  (mp.maxsz.tdiv c.PAGING_PAGESZ).toNat

/-- Frame conservation: the RAM free pool followed by the frames of the resident
entries is a rearrangement of `0, 1, .., maxsz / frame_size - 1`; that is, pool and
resident frames are disjoint, free of repetitions, and cover every frame index. -/
def FrameConservation (c : PagingCfg) (caller : pcb_t) : Prop :=
  List.Perm (caller.mram.free_fp_list ++ residentFrames c caller.mm.pgd)
    ((List.range (numFrames c caller.mram)).map Int.ofNat)

instance (c : PagingCfg) (caller : pcb_t) : Decidable (FrameConservation c caller) := by
  unfold FrameConservation
  infer_instance

/-- A policy that only ever offers a page whose entry is resident. -/
def OffersResident (c : PagingCfg) (policy : VictimPolicy) : Prop :=
  ∀ (mm : mm_struct) (v : Nat) (fifo1 : List Nat), policy mm = some (v, fifo1) →
    ∃ e f, mm.pgd[v]? = some e ∧ decode c e = PageTableEntry.Resident f

/-- Page `p` is not resident in the directory `pgd`. -/
def NotResidentAt (c : PagingCfg) (pgd : List Nat) (p : Nat) : Prop :=
  (pgd[p]?).bind (residentFrame c) = none

instance (c : PagingCfg) (pgd : List Nat) (p : Nat) : Decidable (NotResidentAt c pgd p) := by
  unfold NotResidentAt
  infer_instance

/-- None of the `n` pages starting at the page of `mapstart` is resident. -/
def TargetsNotResident (c : PagingCfg) (mm : mm_struct) (mapstart n : Int) : Prop :=
  ∀ i, i < n.toNat → NotResidentAt c mm.pgd (PAGING_PGN c mapstart + i)

instance (c : PagingCfg) (mm : mm_struct) (mapstart n : Int) :
    Decidable (TargetsNotResident c mm mapstart n) := by
  unfold TargetsNotResident
  infer_instance

/-- A sequence of successful `vm_map_ram` calls, each mapping pages that are not resident
when the call is made. -/
inductive MapRun (c : PagingCfg) (policy : VictimPolicy) (junk : Nat → BYTE) :
    pcb_t → pcb_t → Prop where
  | done (p : pcb_t) : MapRun c policy junk p p
  | step (p q r : pcb_t) (astart aend mapstart n : Int) (rg rg1 : vm_rg_struct) :
      MapRun c policy junk p q → TargetsNotResident c q.mm mapstart n →
      vm_map_ram c policy junk q astart aend mapstart n rg = some (0, rg1, r) →
      MapRun c policy junk p r

/-- A FIFO-style policy that skips pages that are no longer resident: it offers the
oldest page of the history whose entry is resident and removes it from the history. -/
def oldestResidentPolicy (c : PagingCfg) : VictimPolicy := fun mm =>
  match mm.fifo_pgn.reverse.find? (fun p => ((mm.pgd[p]?).bind (residentFrame c)).isSome) with
  | none => none
  | some p => some (p, mm.fifo_pgn.filter (fun x => x != p))

/-- The policy that always offers page 0, resident or not. -/
def alwaysPageZero : VictimPolicy := fun mm => some (0, mm.fifo_pgn)

/-- The process `demoProc1` after `vm_map_ram` has mapped page 2 by evicting page 0 to
swap frame 0. -/
def demoProc2 : pcb_t :=
  { mram := ⟨[1, 2, 3, 4, 5, 6, 7, 8], 8, 1, 0, []⟩
    active_mswp := ⟨[5, 6, 7, 8], 4, 1, 0, []⟩
    mm := ⟨[3221225472, 2147483648, 2147483649, 0], [2, 1]⟩ }

/-- The process `demoProc1` with a swap device of two free frames. -/
def demoProcTwoSwap : pcb_t :=
  { demoProc1 with active_mswp := ⟨[0, 0, 0, 0, 0, 0, 0, 0], 8, 1, 0, [0, 1]⟩ }

/-- The demonstration layout with a frame-number field of a single bit. -/
def tinyCfg : PagingCfg := { demoCfg with PAGING_PTE_FPN_HIBIT := 0 }

/-- A fresh process on a RAM device of three frames. -/
def demoProcThree : pcb_t :=
  { mram := ⟨[1, 2, 3, 4, 5, 6, 7, 8, 9, 10, 11, 12], 12, 1, 0, [0, 1, 2]⟩
    active_mswp := ⟨[0, 0, 0, 0], 4, 1, 0, [0]⟩
    mm := ⟨[0, 0, 0, 0], []⟩ }

/-- Every frame index in the free pool of a device lies in `[0, maxsz / frame_size)`. -/
def PoolInRange (c : PagingCfg) (mp : memphy_struct) : Prop :=
  ∀ f ∈ mp.free_fp_list, 0 ≤ f ∧ f < (numFrames c mp : Int)

/-- The process `demoProc1` with a swap device in sequential mode. -/
def demoProcSeqSwap : pcb_t :=
  { demoProc1 with active_mswp := ⟨[0, 0, 0, 0], 4, 0, 0, [0]⟩ }

/-- The process `demoProc1` with a RAM device in sequential mode. -/
def demoProcSeqRam : pcb_t :=
  { demoProc1 with mram := ⟨[1, 2, 3, 4, 5, 6, 7, 8], 8, 0, 0, []⟩ }

/-- The demonstration layout with a swap-offset field of a single bit (bit 5). -/
def narrowOffCfg : PagingCfg := { demoCfg with PAGING_PTE_SWPOFF_HIBIT := 5 }

/-- The process `demoProc1` with a swap device of three frames whose pool is `2, 0, 1`. -/
def demoProcSwapHead2 : pcb_t :=
  { demoProc1 with
    active_mswp := ⟨[0, 0, 0, 0, 0, 0, 0, 0, 0, 0, 0, 0], 12, 1, 0, [2, 0, 1]⟩ }

/-! # Properties -/

/-! ## Bit-level facts about the word operations -/

/-- An `int` expression whose mathematical value fits in 32 bits has that value. -/
theorem int32_of_range (x : Int) (hlo : -2147483648 ≤ x) (hhi : x < 2147483648) :
    int32 x = x := by
  unfold int32 i32 u32
  split <;> omega

theorem testBit_BIT (n i : Nat) : (BIT n).testBit i = decide (n = i) := by
  unfold BIT
  exact Nat.testBit_two_pow

theorem testBit_GENMASK (h l i : Nat) :
    (GENMASK h l).testBit i = decide (l ≤ i ∧ i ≤ h) := by
  unfold GENMASK
  rw [Nat.testBit_shiftLeft, Nat.testBit_two_pow_sub_one]
  by_cases h1 : l ≤ i <;> by_cases h2 : i ≤ h <;> simp [h1, h2] <;> omega

theorem testBit_allOnes (i : Nat) : (4294967295 : Nat).testBit i = decide (i < 32) := by
  have h : (4294967295 : Nat) = 2 ^ 32 - 1 := by norm_num
  rw [h, Nat.testBit_two_pow_sub_one]

theorem testBit_false_of_lt_two_pow {x n i : Nat} (hx : x < 2 ^ n) (hi : n ≤ i) :
    x.testBit i = false := by
  apply Nat.testBit_lt_two_pow
  exact lt_of_lt_of_le hx (Nat.pow_le_pow_right (by decide) hi)

theorem u32_of_nonneg_lt {x : Int} (h0 : 0 ≤ x) (h1 : x < 4294967296) :
    u32 x = x.toNat := by
  unfold u32
  rw [Int.emod_eq_of_lt h0 h1]

theorem testBit_SETBIT (v n i : Nat) :
    (SETBIT v (BIT n)).testBit i = (v.testBit i || decide (n = i)) := by
  unfold SETBIT
  rw [Nat.testBit_lor, testBit_BIT]

theorem testBit_CLRBIT (v n i : Nat) (hn : n < 32) :
    (CLRBIT v (BIT n)).testBit i = (v.testBit i && decide (i < 32) && !decide (n = i)) := by
  unfold CLRBIT
  rw [Nat.testBit_land, Nat.testBit_xor, testBit_allOnes, testBit_BIT]
  by_cases h1 : i < 32 <;> by_cases h2 : n = i <;> simp [h1, h2]
  omega

theorem testBit_SETVAL (v : Nat) (value : Int) (h l i : Nat) (hh : h < 32) :
    (SETVAL v value (GENMASK h l) l).testBit i =
      if l ≤ i ∧ i ≤ h then (u32 value).testBit (i - l)
      else (v.testBit i && decide (i < 32)) := by
  unfold SETVAL
  have e : (4294967296 : Nat) = 2 ^ 32 := by norm_num
  rw [Nat.testBit_lor, Nat.testBit_land, Nat.testBit_land, Nat.testBit_xor, testBit_allOnes,
    testBit_GENMASK, e, Nat.testBit_mod_two_pow, Nat.testBit_shiftLeft]
  by_cases h1 : l ≤ i <;> by_cases h2 : i ≤ h <;> by_cases h3 : i < 32 <;>
    simp [h1, h2, h3]
  all_goals omega

theorem testBit_GETVAL (v h l j : Nat) :
    (GETVAL v (GENMASK h l) l).testBit j = (v.testBit (l + j) && decide (l + j ≤ h)) := by
  unfold GETVAL
  rw [Nat.testBit_shiftRight, Nat.testBit_land, testBit_GENMASK]
  simp

theorem and_BIT_ne_zero (v n : Nat) : ((v &&& BIT n) != 0) = v.testBit n := by
  unfold BIT
  rw [Nat.and_comm, Nat.two_pow_and]
  cases h : v.testBit n <;> simp

theorem pte_present_iff (c : PagingCfg) (pte : Nat) :
    pte_present c pte = pte.testBit c.presentBit :=
  and_BIT_ne_zero pte c.presentBit

theorem pte_swapped_iff (c : PagingCfg) (pte : Nat) :
    pte_swapped c pte = pte.testBit c.swappedBit :=
  and_BIT_ne_zero pte c.swappedBit

theorem fieldCard_le (h l : Nat) (hh : h < 32) : fieldCard h l ≤ 4294967296 := by
  unfold fieldCard
  have e : (4294967296 : Nat) = 2 ^ 32 := by norm_num
  rw [e]
  exact Nat.pow_le_pow_right (by decide) (by omega)

theorem u32_of_field {value : Int} {h l : Nat} (hh : h < 32) (h0 : 0 ≤ value)
    (hlt : value < fieldCard h l) : u32 value = value.toNat := by
  apply u32_of_nonneg_lt h0
  have := fieldCard_le h l hh
  omega

theorem toNat_lt_fieldCard {value : Int} {h l : Nat} (h0 : 0 ≤ value)
    (hlt : value < fieldCard h l) : value.toNat < 2 ^ (h + 1 - l) := by
  unfold fieldCard at hlt
  have : ((value.toNat : Nat) : Int) < ((2 ^ (h + 1 - l) : Nat) : Int) := by
    rw [Int.toNat_of_nonneg h0]
    exact_mod_cast hlt
  exact_mod_cast this

/-- Reading back the field that was just written gives the written value. -/
theorem GETVAL_SETVAL_same (v : Nat) (value : Int) (h l : Nat) (hh : h < 32)
    (h0 : 0 ≤ value) (hlt : value < fieldCard h l) :
    GETVAL (SETVAL v value (GENMASK h l) l) (GENMASK h l) l = value.toNat := by
  apply Nat.eq_of_testBit_eq
  intro j
  rw [testBit_GETVAL, testBit_SETVAL _ _ _ _ _ hh, u32_of_field hh h0 hlt]
  by_cases hj : l + j ≤ h
  · have e : l + j - l = j := by omega
    simp [hj, e]
  · have hf : value.toNat.testBit j = false :=
      testBit_false_of_lt_two_pow (toNat_lt_fieldCard h0 hlt) (by omega)
    simp [hj, hf]

/-- Writing one field leaves a field that does not overlap it as it was. -/
theorem GETVAL_SETVAL_disjoint (v : Nat) (value : Int) (h1 l1 h2 l2 : Nat) (hh1 : h1 < 32)
    (hh2 : h2 < 32) (hd : h1 < l2 ∨ h2 < l1) :
    GETVAL (SETVAL v value (GENMASK h1 l1) l1) (GENMASK h2 l2) l2 =
      GETVAL v (GENMASK h2 l2) l2 := by
  apply Nat.eq_of_testBit_eq
  intro j
  rw [testBit_GETVAL, testBit_GETVAL, testBit_SETVAL _ _ _ _ _ hh1]
  by_cases hj : l2 + j ≤ h2
  · have hn : ¬(l1 ≤ l2 + j ∧ l2 + j ≤ h1) := by omega
    have h32 : l2 + j < 32 := by omega
    simp [hj, hn, h32]
  · simp [hj]

/-- Writing a field leaves a bit outside the field as it was. -/
theorem testBit_SETVAL_outside (v : Nat) (value : Int) (h l n : Nat) (hh : h < 32)
    (hn : n < 32) (ho : n < l ∨ h < n) :
    (SETVAL v value (GENMASK h l) l).testBit n = v.testBit n := by
  rw [testBit_SETVAL _ _ _ _ _ hh]
  have hn2 : ¬(l ≤ n ∧ n ≤ h) := by omega
  simp [hn2, hn]

theorem pte_set_fpn_eq (c : PagingCfg) (hc : c.WF) (pte : Nat) (fpn : Int) :
    pte_set_fpn c pte fpn = (0, residentEntry c fpn) := by
  have hclr : CLRBIT (SETBIT 0 c.PAGING_PTE_PRESENT_MASK) c.PAGING_PTE_SWAPPED_MASK =
      SETBIT 0 c.PAGING_PTE_PRESENT_MASK := by
    apply Nat.eq_of_testBit_eq
    intro i
    unfold PagingCfg.PAGING_PTE_PRESENT_MASK PagingCfg.PAGING_PTE_SWAPPED_MASK
    rw [testBit_CLRBIT _ _ _ hc.swapped_lt, testBit_SETBIT]
    have h1 := hc.present_lt
    have h2 := hc.flags_ne
    by_cases hp : c.presentBit = i
    · have hs : ¬ c.swappedBit = i := by omega
      have hi : i < 32 := by omega
      simp [hp, hs, hi]
    · simp [hp]
  unfold pte_set_fpn residentEntry
  simp only [hclr]

theorem pte_set_swap_eq (c : PagingCfg) (pte : Nat) (swptyp swpoff : Int) :
    pte_set_swap c pte swptyp swpoff = (0, swappedEntry c swptyp swpoff) := rfl

theorem residentEntry_present (c : PagingCfg) (hc : c.WF) (fpn : Int) :
    pte_present c (residentEntry c fpn) = true := by
  rw [pte_present_iff]
  unfold residentEntry PagingCfg.PAGING_PTE_FPN_MASK PagingCfg.PAGING_PTE_PRESENT_MASK
  rw [testBit_SETVAL_outside _ _ _ _ _ hc.fpn_lt hc.present_lt hc.fpn_present, testBit_SETBIT]
  simp

theorem residentEntry_swapped (c : PagingCfg) (hc : c.WF) (fpn : Int) :
    pte_swapped c (residentEntry c fpn) = false := by
  rw [pte_swapped_iff]
  unfold residentEntry PagingCfg.PAGING_PTE_FPN_MASK PagingCfg.PAGING_PTE_PRESENT_MASK
  rw [testBit_SETVAL_outside _ _ _ _ _ hc.fpn_lt hc.swapped_lt hc.fpn_swapped, testBit_SETBIT]
  have := hc.flags_ne
  simp [this]

theorem residentEntry_fpn (c : PagingCfg) (hc : c.WF) (fpn : Int) (h0 : 0 ≤ fpn)
    (hlt : fpn < fieldCard c.PAGING_PTE_FPN_HIBIT c.PAGING_PTE_FPN_LOBIT) :
    PAGING_FPN c (residentEntry c fpn) = fpn.toNat := by
  unfold PAGING_FPN residentEntry PagingCfg.PAGING_PTE_FPN_MASK
  exact GETVAL_SETVAL_same _ _ _ _ hc.fpn_lt h0 hlt

theorem decode_residentEntry (c : PagingCfg) (hc : c.WF) (fpn : Int) (h0 : 0 ≤ fpn)
    (hlt : fpn < fieldCard c.PAGING_PTE_FPN_HIBIT c.PAGING_PTE_FPN_LOBIT) :
    decode c (residentEntry c fpn) = PageTableEntry.Resident fpn.toNat := by
  unfold decode
  rw [residentEntry_present c hc, residentEntry_swapped c hc, residentEntry_fpn c hc fpn h0 hlt]
  rfl

theorem swappedEntry_present (c : PagingCfg) (hc : c.WF) (swptyp swpoff : Int) :
    pte_present c (swappedEntry c swptyp swpoff) = true := by
  rw [pte_present_iff]
  unfold swappedEntry PagingCfg.PAGING_PTE_SWPOFF_MASK PagingCfg.PAGING_PTE_SWPTYP_MASK
    PagingCfg.PAGING_PTE_PRESENT_MASK PagingCfg.PAGING_PTE_SWAPPED_MASK
  rw [testBit_SETVAL_outside _ _ _ _ _ hc.off_lt hc.present_lt hc.off_present,
    testBit_SETVAL_outside _ _ _ _ _ hc.typ_lt hc.present_lt hc.typ_present, testBit_SETBIT,
    testBit_SETBIT]
  simp

theorem swappedEntry_swapped (c : PagingCfg) (hc : c.WF) (swptyp swpoff : Int) :
    pte_swapped c (swappedEntry c swptyp swpoff) = true := by
  rw [pte_swapped_iff]
  unfold swappedEntry PagingCfg.PAGING_PTE_SWPOFF_MASK PagingCfg.PAGING_PTE_SWPTYP_MASK
    PagingCfg.PAGING_PTE_PRESENT_MASK PagingCfg.PAGING_PTE_SWAPPED_MASK
  rw [testBit_SETVAL_outside _ _ _ _ _ hc.off_lt hc.swapped_lt hc.off_swapped,
    testBit_SETVAL_outside _ _ _ _ _ hc.typ_lt hc.swapped_lt hc.typ_swapped, testBit_SETBIT]
  simp

theorem swappedEntry_off (c : PagingCfg) (hc : c.WF) (swptyp swpoff : Int) (h0 : 0 ≤ swpoff)
    (hlt : swpoff < fieldCard c.PAGING_PTE_SWPOFF_HIBIT c.PAGING_PTE_SWPOFF_LOBIT) :
    PAGING_SWPOFF c (swappedEntry c swptyp swpoff) = swpoff.toNat := by
  unfold PAGING_SWPOFF swappedEntry PagingCfg.PAGING_PTE_SWPOFF_MASK
  exact GETVAL_SETVAL_same _ _ _ _ hc.off_lt h0 hlt

theorem swappedEntry_typ (c : PagingCfg) (hc : c.WF) (swptyp swpoff : Int) (h0 : 0 ≤ swptyp)
    (hlt : swptyp < fieldCard c.PAGING_PTE_SWPTYP_HIBIT c.PAGING_PTE_SWPTYP_LOBIT) :
    PAGING_SWPTYP c (swappedEntry c swptyp swpoff) = swptyp.toNat := by
  unfold PAGING_SWPTYP swappedEntry PagingCfg.PAGING_PTE_SWPOFF_MASK
    PagingCfg.PAGING_PTE_SWPTYP_MASK
  rw [GETVAL_SETVAL_disjoint _ _ _ _ _ _ hc.off_lt hc.typ_lt
    (by have := hc.typ_off; omega)]
  exact GETVAL_SETVAL_same _ _ _ _ hc.typ_lt h0 hlt

theorem decode_swappedEntry (c : PagingCfg) (hc : c.WF) (swptyp swpoff : Int)
    (ht0 : 0 ≤ swptyp)
    (htlt : swptyp < fieldCard c.PAGING_PTE_SWPTYP_HIBIT c.PAGING_PTE_SWPTYP_LOBIT)
    (ho0 : 0 ≤ swpoff)
    (holt : swpoff < fieldCard c.PAGING_PTE_SWPOFF_HIBIT c.PAGING_PTE_SWPOFF_LOBIT) :
    decode c (swappedEntry c swptyp swpoff) =
      PageTableEntry.Swapped swptyp.toNat swpoff.toNat := by
  unfold decode
  rw [swappedEntry_present c hc, swappedEntry_swapped c hc,
    swappedEntry_typ c hc _ _ ht0 htlt, swappedEntry_off c hc _ _ ho0 holt]
  rfl

theorem demoCfg_WF : demoCfg.WF := by decide

/-! ## Entry codec: round trips -/

/-- C1. Resident round trip: for a frame number `f ≠ 0` that fits the frame-number
field and any prior entry, `init_pte` (with `pre ≠ 0`, `swp = 0`) and `pte_set_fpn`
both return 0 and leave an entry with the present bit set, the swapped bit clear and
`PAGING_FPN` equal to `f`; the entry decodes to `Resident f`. -/
theorem resident_round_trip (c : PagingCfg) (hc : c.WF) (pte : Nat)
    (pre f drt swptyp swpoff : Int) (hpre : pre ≠ 0) (hf0 : f ≠ 0) (hf : 0 ≤ f)
    (hlt : f < fieldCard c.PAGING_PTE_FPN_HIBIT c.PAGING_PTE_FPN_LOBIT) :
    ((init_pte c pte pre f drt 0 swptyp swpoff).1 = 0 ∧
      pte_present c (init_pte c pte pre f drt 0 swptyp swpoff).2 = true ∧
      pte_swapped c (init_pte c pte pre f drt 0 swptyp swpoff).2 = false ∧
      (PAGING_FPN c (init_pte c pte pre f drt 0 swptyp swpoff).2 : Int) = f ∧
      decode c (init_pte c pte pre f drt 0 swptyp swpoff).2 =
        PageTableEntry.Resident f.toNat) ∧
    ((pte_set_fpn c pte f).1 = 0 ∧
      pte_present c (pte_set_fpn c pte f).2 = true ∧
      pte_swapped c (pte_set_fpn c pte f).2 = false ∧
      (PAGING_FPN c (pte_set_fpn c pte f).2 : Int) = f ∧
      decode c (pte_set_fpn c pte f).2 = PageTableEntry.Resident f.toNat) := by
  have hi : init_pte c pte pre f drt 0 swptyp swpoff = (0, residentEntry c f) := by
    unfold init_pte residentEntry
    simp [hpre, hf0]
  have hfpn : (PAGING_FPN c (residentEntry c f) : Int) = f := by
    rw [residentEntry_fpn c hc f hf hlt]
    exact Int.toNat_of_nonneg hf
  rw [hi, pte_set_fpn_eq c hc]
  exact ⟨⟨rfl, residentEntry_present c hc f, residentEntry_swapped c hc f, hfpn,
      decode_residentEntry c hc f hf hlt⟩,
    ⟨rfl, residentEntry_present c hc f, residentEntry_swapped c hc f, hfpn,
      decode_residentEntry c hc f hf hlt⟩⟩

/-- Instance of C1: frame 5 on the demonstration layout, over a prior entry with every
bit set. -/
theorem resident_round_trip_witness :
    demoCfg.WF ∧ (5 : Int) < fieldCard 12 0 ∧
    (init_pte demoCfg 4294967295 1 5 0 0 0 0).1 = 0 ∧
    decode demoCfg (init_pte demoCfg 4294967295 1 5 0 0 0 0).2 = PageTableEntry.Resident 5 ∧
    (pte_set_fpn demoCfg 4294967295 5).1 = 0 ∧
    decode demoCfg (pte_set_fpn demoCfg 4294967295 5).2 = PageTableEntry.Resident 5 :=
  have h := resident_round_trip demoCfg demoCfg_WF 4294967295 1 5 0 0 0 (by decide)
    (by decide) (by decide) (by decide)
  ⟨demoCfg_WF, by decide, h.1.1, h.1.2.2.2.2, h.2.1, h.2.2.2.2.2⟩

/-- C2. Swapped round trip: for a swap type `t` and a swap offset `o` that fit their
fields and any prior entry, `pte_set_swap` and `init_pte` (with `pre ≠ 0`, `swp ≠ 0`)
return 0 and leave an entry whose swapped bit is set and whose swap-type and
swap-offset fields read back `t` and `o`; the entry decodes to `Swapped t o`. -/
theorem swapped_round_trip (c : PagingCfg) (hc : c.WF) (pte : Nat)
    (pre fpn drt swp t o : Int) (hpre : pre ≠ 0) (hswp : swp ≠ 0) (ht : 0 ≤ t)
    (htlt : t < fieldCard c.PAGING_PTE_SWPTYP_HIBIT c.PAGING_PTE_SWPTYP_LOBIT) (ho : 0 ≤ o)
    (holt : o < fieldCard c.PAGING_PTE_SWPOFF_HIBIT c.PAGING_PTE_SWPOFF_LOBIT) :
    ((pte_set_swap c pte t o).1 = 0 ∧
      pte_swapped c (pte_set_swap c pte t o).2 = true ∧
      (PAGING_SWPTYP c (pte_set_swap c pte t o).2 : Int) = t ∧
      (PAGING_SWPOFF c (pte_set_swap c pte t o).2 : Int) = o ∧
      decode c (pte_set_swap c pte t o).2 = PageTableEntry.Swapped t.toNat o.toNat) ∧
    ((init_pte c pte pre fpn drt swp t o).1 = 0 ∧
      pte_swapped c (init_pte c pte pre fpn drt swp t o).2 = true ∧
      (PAGING_SWPTYP c (init_pte c pte pre fpn drt swp t o).2 : Int) = t ∧
      (PAGING_SWPOFF c (init_pte c pte pre fpn drt swp t o).2 : Int) = o ∧
      decode c (init_pte c pte pre fpn drt swp t o).2 =
        PageTableEntry.Swapped t.toNat o.toNat) := by
  have hi : init_pte c pte pre fpn drt swp t o = (0, swappedEntry c t o) := by
    unfold init_pte swappedEntry
    simp [hpre, hswp]
  have htyp : (PAGING_SWPTYP c (swappedEntry c t o) : Int) = t := by
    rw [swappedEntry_typ c hc t o ht htlt]
    exact Int.toNat_of_nonneg ht
  have hoff : (PAGING_SWPOFF c (swappedEntry c t o) : Int) = o := by
    rw [swappedEntry_off c hc t o ho holt]
    exact Int.toNat_of_nonneg ho
  rw [hi, pte_set_swap_eq]
  exact ⟨⟨rfl, swappedEntry_swapped c hc t o, htyp, hoff,
      decode_swappedEntry c hc t o ht htlt ho holt⟩,
    ⟨rfl, swappedEntry_swapped c hc t o, htyp, hoff,
      decode_swappedEntry c hc t o ht htlt ho holt⟩⟩

/-- Instance of C2: swap type 3, offset 1000 on the demonstration layout, over a prior
entry with every bit set. -/
theorem swapped_round_trip_witness :
    demoCfg.WF ∧ (3 : Int) < fieldCard 4 0 ∧ (1000 : Int) < fieldCard 25 5 ∧
    (pte_set_swap demoCfg 4294967295 3 1000).1 = 0 ∧
    decode demoCfg (pte_set_swap demoCfg 4294967295 3 1000).2 =
      PageTableEntry.Swapped 3 1000 ∧
    (init_pte demoCfg 4294967295 1 7 0 1 3 1000).1 = 0 ∧
    decode demoCfg (init_pte demoCfg 4294967295 1 7 0 1 3 1000).2 =
      PageTableEntry.Swapped 3 1000 :=
  have h := swapped_round_trip demoCfg demoCfg_WF 4294967295 1 7 0 1 3 1000 (by decide)
    (by decide) (by decide) (by decide) (by decide) (by decide)
  ⟨demoCfg_WF, by decide, by decide, h.1.1, h.1.2.2.2.2, h.2.1, h.2.2.2.2.2⟩

/-! ## The free-frame pool -/

theorem format_loop_spec (numfp : Int) : ∀ (fuel : Nat) (iter : Nat) (built next : List Int),
    numfp ≤ iter + fuel →
    format_loop numfp fuel iter built next =
      if (iter : Int) < numfp then
        built ++ (List.range' iter (numfp.toNat - iter)).map Int.ofNat
      else built ++ next := by
  intro fuel
  induction fuel with
  | zero =>
    intro iter built next h
    have : ¬ ((iter : Int) < numfp) := by omega
    simp [format_loop, this]
  | succ k ih =>
    intro iter built next h
    by_cases hlt : (iter : Int) < numfp
    · have h2 := ih (iter + 1) (built ++ [(iter : Int)]) [] (by push_cast; omega)
      rw [format_loop, if_pos hlt]
      have e : ((iter : Int) + 1) = ((iter + 1 : Nat) : Int) := by push_cast; rfl
      rw [e, h2, if_pos hlt]
      have hn : numfp.toNat - iter = (numfp.toNat - (iter + 1)) + 1 := by omega
      rw [hn, List.range'_succ]
      by_cases h3 : ((iter + 1 : Nat) : Int) < numfp
      · rw [if_pos h3]
        simp
      · have : numfp.toNat - (iter + 1) = 0 := by omega
        rw [if_neg h3, this]
        simp
    · rw [format_loop, if_neg hlt, if_neg hlt]

theorem format_loop_full (numfp : Int) (junk : List Int) (h : 2 ≤ numfp) :
    format_loop numfp numfp.toNat 1 [0] junk = (List.range numfp.toNat).map Int.ofNat := by
  have h1 := format_loop_spec numfp numfp.toNat 1 [0] junk (by omega)
  have e : ((1 : Nat) : Int) = 1 := rfl
  rw [e] at h1
  rw [h1, if_pos (by omega)]
  have hn : numfp.toNat = (numfp.toNat - 1) + 1 := by omega
  conv_rhs => rw [hn, List.range_eq_range', List.range'_succ]
  simp
/-- `MEMPHY_format` on a device of at least two frames: the pool becomes `0, 1, .., n-1`
whatever it held before and whatever the uninitialised link held. -/
theorem MEMPHY_format_ascending (mp : memphy_struct) (pagesz : Int) (junk : List Int)
    (hp : 0 < pagesz) (hdiv : mp.maxsz.tmod pagesz = 0) (hn : 2 ≤ mp.maxsz.tdiv pagesz) :
    MEMPHY_format mp pagesz junk =
      (0, { mp with
        free_fp_list := (List.range (mp.maxsz.tdiv pagesz).toNat).map Int.ofNat }) := by
  unfold MEMPHY_format
  have h1 : ¬(pagesz ≤ 0 ∨ mp.maxsz.tmod pagesz ≠ 0) := by
    intro h
    rcases h with h | h
    · omega
    · exact h hdiv
  have h2 : ¬(mp.maxsz.tdiv pagesz ≤ 0) := by omega
  simp only [if_neg h1, if_neg h2]
  rw [format_loop_full _ junk hn]

/-- C9. `MEMPHY_get_freefp` pops the head of the free pool: on a pool `h :: rest` it
returns 0, stores `h` and leaves `rest`, with storage, size, mode and cursor as they
were; on an empty pool it returns -1, stores nothing and leaves the device as it was;
it fails exactly when the pool is empty. -/
theorem get_freefp_pops_head (storage : List BYTE) (maxsz rdmflg cursor : Int) (h : Int)
    (rest : List Int) (mp : memphy_struct) :
    MEMPHY_get_freefp ⟨storage, maxsz, rdmflg, cursor, h :: rest⟩ =
      (0, some h, ⟨storage, maxsz, rdmflg, cursor, rest⟩) ∧
    MEMPHY_get_freefp ⟨storage, maxsz, rdmflg, cursor, []⟩ =
      (-1, none, ⟨storage, maxsz, rdmflg, cursor, []⟩) ∧
    ((MEMPHY_get_freefp mp).1 = -1 ↔ mp.free_fp_list = []) ∧
    ((MEMPHY_get_freefp mp).1 = 0 ↔ mp.free_fp_list ≠ []) := by
  refine ⟨rfl, rfl, ?_, ?_⟩
  · unfold MEMPHY_get_freefp
    cases hl : mp.free_fp_list <;> simp
  · unfold MEMPHY_get_freefp
    cases hl : mp.free_fp_list <;> simp

/-- C10, on a device of exactly one frame.  `MEMPHY_format` returns 0 and leaves the pool
`0 :: junk`, where `junk` is what the never-assigned `fp_next` of the head node denotes:
the pool is `[0]` only if that uninitialised link happens to be null. -/
theorem format_one_frame_keeps_uninitialised_link (mp : memphy_struct) (pagesz : Int)
    (junk : List Int) (hp : 0 < pagesz) (h1 : mp.maxsz = pagesz) :
    MEMPHY_format mp pagesz junk = (0, { mp with free_fp_list := 0 :: junk }) := by
  unfold MEMPHY_format
  have hm : mp.maxsz.tmod pagesz = 0 := by rw [h1]; exact Int.tmod_self
  have hd : mp.maxsz.tdiv pagesz = 1 := by rw [h1]; exact Int.tdiv_self (by omega)
  have hg : ¬(pagesz ≤ 0 ∨ mp.maxsz.tmod pagesz ≠ 0) := by
    intro h
    rcases h with h | h
    · omega
    · exact h hm
  simp only [if_neg hg, hd]
  rfl

/-- Instance of the single-frame case: with a link that denotes the list `[7]`, formatting
a 4-byte device with frame size 4 leaves the pool `[0, 7]`, `init_memphy` does the same,
and the second `MEMPHY_get_freefp` succeeds with frame 7 instead of failing. -/
theorem format_one_frame_keeps_uninitialised_link_witness :
    MEMPHY_format ⟨[0, 0, 0, 0], 4, 1, 0, []⟩ 4 [7] = (0, ⟨[0, 0, 0, 0], 4, 1, 0, [0, 7]⟩) ∧
    init_memphy demoCfg ⟨[], 0, 0, 0, []⟩ 4 1 [0, 0, 0, 0] [7] =
      (0, ⟨[0, 0, 0, 0], 4, 1, 0, [0, 7]⟩) ∧
    MEMPHY_get_freefp (MEMPHY_get_freefp ⟨[0, 0, 0, 0], 4, 1, 0, [0, 7]⟩).2.2 =
      (0, some 7, ⟨[0, 0, 0, 0], 4, 1, 0, []⟩) :=
  ⟨format_one_frame_keeps_uninitialised_link ⟨[0, 0, 0, 0], 4, 1, 0, []⟩ 4 [7] (by decide) rfl,
    by decide, by decide⟩


theorem MEMPHY_read_random (mp : memphy_struct) (a : Nat) (b : BYTE) (hr : mp.rdmflg ≠ 0)
    (hlt : (a : Int) < mp.maxsz) (hb : mp.storage[a]? = some b) :
    MEMPHY_read mp (a : Int) = some (0, some b, mp) := by
  unfold MEMPHY_read
  have hg : ¬(mp.rdmflg = 0 ∨ (a : Int) < 0 ∨ (a : Int) ≥ mp.maxsz) := by
    intro h
    rcases h with h | h | h
    · exact hr h
    · omega
    · omega
  rw [if_neg hg, if_pos hr]
  simp [hb]

theorem MEMPHY_write_random (mp : memphy_struct) (a : Nat) (b : BYTE) (hr : mp.rdmflg ≠ 0)
    (hlt : a < mp.storage.length) :
    MEMPHY_write mp (a : Int) b = some (0, { mp with storage := mp.storage.set a b }) := by
  unfold MEMPHY_write storeByte
  rw [if_pos hr]
  simp [hlt]

theorem swap_cp_loop_pair (c : PagingCfg) (junk : Nat → BYTE) (sf df : Int) (sb db : Nat)
    (hs : sf * (c.PAGING_PAGESZ : Int) = (sb : Int))
    (hd : df * (c.PAGING_PAGESZ : Int) = (db : Int)) (src : memphy_struct)
    (hsr : src.rdmflg ≠ 0) (hsl : (src.storage.length : Int) = src.maxsz) :
    ∀ (k i : Nat) (dst : memphy_struct), dst.rdmflg ≠ 0 →
      sb + i + k ≤ src.storage.length → db + i + k ≤ dst.storage.length →
      ∃ st : List BYTE,
        swap_cp_loop
          (fun s addr => (MEMPHY_read s.1 addr).map fun r => (r.1, r.2.1, (r.2.2, s.2)))
          (fun s addr data => (MEMPHY_write s.2 addr data).map fun r => (r.1, (s.1, r.2)))
          c sf df junk k i (src, dst) = some (src, { dst with storage := st }) ∧
        st.length = dst.storage.length ∧
        ∀ j, st[j]? =
          if db + i ≤ j ∧ j < db + i + k then src.storage[sb + (j - db)]? else dst.storage[j]? := by
  intro k
  induction k with
  | zero =>
    intro i dst _ _ _
    refine ⟨dst.storage, rfl, rfl, ?_⟩
    intro j
    have : ¬(db + i ≤ j ∧ j < db + i + 0) := by omega
    rw [if_neg this]
  | succ k ih =>
    intro i dst hdr hsk hdk
    have hsi : sb + i < src.storage.length := by omega
    have hdi : db + i < dst.storage.length := by omega
    have hrd : MEMPHY_read src ((sb + i : Nat) : Int) =
        some (0, some src.storage[sb + i], src) :=
      MEMPHY_read_random src (sb + i) _ hsr (by omega) (by simp [hsi])
    have hwr : MEMPHY_write dst ((db + i : Nat) : Int) src.storage[sb + i] =
        some (0, { dst with storage := dst.storage.set (db + i) src.storage[sb + i] }) :=
      MEMPHY_write_random dst (db + i) _ hdr hdi
    obtain ⟨st, hst, hlen, hget⟩ :=
      ih (i + 1) { dst with storage := dst.storage.set (db + i) src.storage[sb + i] } hdr
        (by omega) (by simp only [List.length_set]; omega)
    refine ⟨st, ?_, ?_, ?_⟩
    · have e1 : sf * (c.PAGING_PAGESZ : Int) + (i : Int) = ((sb + i : Nat) : Int) := by
        rw [hs]; push_cast; rfl
      have e2 : df * (c.PAGING_PAGESZ : Int) + (i : Int) = ((db + i : Nat) : Int) := by
        rw [hd]; push_cast; rfl
      rw [swap_cp_loop]
      simp only [e1, e2, hrd, hwr, Option.map_some', Option.getD_some]
      exact hst
    · rw [hlen]; simp
    · intro j
      rw [hget j]
      simp only [List.getElem?_set]
      by_cases hj : db + i = j
      · subst hj
        have h1 : ¬(db + (i + 1) ≤ db + i ∧ db + i < db + (i + 1) + k) := by omega
        have h2 : db + i ≤ db + i ∧ db + i < db + i + (k + 1) := by omega
        have h3 : sb + (db + i - db) = sb + i := by omega
        rw [if_neg h1, if_pos h2, h3]
        simp [hdi, hsi]
      · by_cases hr : db + (i + 1) ≤ j ∧ j < db + (i + 1) + k
        · have h2 : db + i ≤ j ∧ j < db + i + (k + 1) := by omega
          rw [if_pos hr, if_pos h2]
        · have h2 : ¬(db + i ≤ j ∧ j < db + i + (k + 1)) := by omega
          rw [if_neg hr, if_neg h2]
          simp [hj]

theorem swap_cp_loop_same_disjoint (c : PagingCfg) (junk : Nat → BYTE) (sf df : Int)
    (sb db : Nat) (hs : sf * (c.PAGING_PAGESZ : Int) = (sb : Int))
    (hd : df * (c.PAGING_PAGESZ : Int) = (db : Int)) :
    ∀ (k i : Nat) (mp : memphy_struct), mp.rdmflg ≠ 0 →
      (mp.storage.length : Int) = mp.maxsz →
      sb + i + k ≤ mp.storage.length → db + i + k ≤ mp.storage.length →
      (sb + (i + k) ≤ db ∨ db + (i + k) ≤ sb) →
      ∃ st : List BYTE,
        swap_cp_loop MEMPHY_read MEMPHY_write c sf df junk k i mp =
          some { mp with storage := st } ∧
        st.length = mp.storage.length ∧
        ∀ j, st[j]? =
          if db + i ≤ j ∧ j < db + i + k then mp.storage[sb + (j - db)]? else mp.storage[j]? := by
  intro k
  induction k with
  | zero =>
    intro i mp _ _ _ _ _
    refine ⟨mp.storage, rfl, rfl, ?_⟩
    intro j
    have : ¬(db + i ≤ j ∧ j < db + i + 0) := by omega
    rw [if_neg this]
  | succ k ih =>
    intro i mp hr hl hsk hdk hdis
    have hsi : sb + i < mp.storage.length := by omega
    have hdi : db + i < mp.storage.length := by omega
    have hrd : MEMPHY_read mp ((sb + i : Nat) : Int) =
        some (0, some mp.storage[sb + i], mp) :=
      MEMPHY_read_random mp (sb + i) _ hr (by omega) (by simp [hsi])
    have hwr : MEMPHY_write mp ((db + i : Nat) : Int) mp.storage[sb + i] =
        some (0, { mp with storage := mp.storage.set (db + i) mp.storage[sb + i] }) :=
      MEMPHY_write_random mp (db + i) _ hr hdi
    obtain ⟨st, hst, hlen, hget⟩ :=
      ih (i + 1) { mp with storage := mp.storage.set (db + i) mp.storage[sb + i] } hr
        (by simp only [List.length_set]; exact hl)
        (by simp only [List.length_set]; omega) (by simp only [List.length_set]; omega)
        (by omega)
    refine ⟨st, ?_, ?_, ?_⟩
    · have e1 : sf * (c.PAGING_PAGESZ : Int) + (i : Int) = ((sb + i : Nat) : Int) := by
        rw [hs]; push_cast; rfl
      have e2 : df * (c.PAGING_PAGESZ : Int) + (i : Int) = ((db + i : Nat) : Int) := by
        rw [hd]; push_cast; rfl
      rw [swap_cp_loop]
      simp only [e1, e2, hrd, hwr, Option.getD_some]
      exact hst
    · rw [hlen]; simp
    · intro j
      rw [hget j]
      simp only [List.getElem?_set]
      by_cases hj : db + i = j
      · subst hj
        have h1 : ¬(db + (i + 1) ≤ db + i ∧ db + i < db + (i + 1) + k) := by omega
        have h2 : db + i ≤ db + i ∧ db + i < db + i + (k + 1) := by omega
        have h3 : sb + (db + i - db) = sb + i := by omega
        rw [if_neg h1, if_pos h2, h3]
        simp [hdi, hsi]
      · by_cases hr : db + (i + 1) ≤ j ∧ j < db + (i + 1) + k
        · have h2 : db + i ≤ j ∧ j < db + i + (k + 1) := by omega
          have h3 : ¬(db + i = sb + (j - db)) := by omega
          rw [if_pos hr, if_pos h2, if_neg h3]
        · have h2 : ¬(db + i ≤ j ∧ j < db + i + (k + 1)) := by omega
          rw [if_neg hr, if_neg h2]
          simp [hj]

theorem list_set_self {α : Type} (l : List α) (i : Nat) (h : i < l.length) :
    l.set i l[i] = l := by
  apply List.ext_getElem?
  intro n
  rw [List.getElem?_set]
  by_cases hn : i = n
  · subst hn
    simp [h]
  · simp [hn]

theorem swap_cp_loop_same_frame (c : PagingCfg) (junk : Nat → BYTE) (sf : Int) (sb : Nat)
    (hs : sf * (c.PAGING_PAGESZ : Int) = (sb : Int)) (mp : memphy_struct)
    (hr : mp.rdmflg ≠ 0) (hl : (mp.storage.length : Int) = mp.maxsz) :
    ∀ (k i : Nat), sb + i + k ≤ mp.storage.length →
      swap_cp_loop MEMPHY_read MEMPHY_write c sf sf junk k i mp = some mp := by
  intro k
  induction k with
  | zero => intro i _; rfl
  | succ k ih =>
    intro i hsk
    have hsi : sb + i < mp.storage.length := by omega
    have hrd : MEMPHY_read mp ((sb + i : Nat) : Int) =
        some (0, some mp.storage[sb + i], mp) :=
      MEMPHY_read_random mp (sb + i) _ hr (by omega) (by simp [hsi])
    have hwr : MEMPHY_write mp ((sb + i : Nat) : Int) mp.storage[sb + i] = some (0, mp) := by
      rw [MEMPHY_write_random mp (sb + i) _ hr hsi, list_set_self _ _ hsi]
    have e1 : sf * (c.PAGING_PAGESZ : Int) + (i : Int) = ((sb + i : Nat) : Int) := by
      rw [hs]; push_cast; rfl
    rw [swap_cp_loop]
    simp only [e1, hrd, hwr, Option.getD_some]
    exact ih (i + 1) (by omega)

theorem frame_base_nat (P : Nat) (f : Int) (hf : 0 ≤ f) :
    f * (P : Int) = ((f * (P : Int)).toNat : Int) := by
  have : 0 ≤ f * (P : Int) := Int.mul_nonneg hf (Int.ofNat_nonneg P)
  omega

theorem frames_apart (P : Nat) (sf df : Int) (hs : 0 ≤ sf) (h : sf < df) :
    (sf * (P : Int)).toNat + P ≤ (df * (P : Int)).toNat := by
  have h1 : (sf + 1) * (P : Int) ≤ df * (P : Int) :=
    Int.mul_le_mul_of_nonneg_right (by omega) (Int.ofNat_nonneg P)
  have h2 : (sf + 1) * (P : Int) = sf * (P : Int) + P := by ring
  have h3 : 0 ≤ sf * (P : Int) := Int.mul_nonneg hs (Int.ofNat_nonneg P)
  omega

/-! ## Swap copy -/

/-- The copy between two different random-mode devices, frame `sf` to frame `df`. -/
theorem swap_cp_page_distinct (c : PagingCfg) (junk : Nat → BYTE)
    (src dst : memphy_struct) (sf df : Int)
    (hsr : src.rdmflg ≠ 0) (hdr : dst.rdmflg ≠ 0)
    (hsl : (src.storage.length : Int) = src.maxsz)
    (hdl : (dst.storage.length : Int) = dst.maxsz)
    (hsf : 0 ≤ sf) (hsin : (sf + 1) * (c.PAGING_PAGESZ : Int) ≤ src.maxsz)
    (hdf : 0 ≤ df) (hdin : (df + 1) * (c.PAGING_PAGESZ : Int) ≤ dst.maxsz) :
    ∃ st : List BYTE,
      __swap_cp_page c junk src sf dst df = some (0, src, { dst with storage := st }) ∧
      st.length = dst.storage.length ∧
      (∀ i, i < c.PAGING_PAGESZ →
        st[(df * (c.PAGING_PAGESZ : Int)).toNat + i]? =
          src.storage[(sf * (c.PAGING_PAGESZ : Int)).toNat + i]?) ∧
      (∀ j, j < (df * (c.PAGING_PAGESZ : Int)).toNat ∨
          (df * (c.PAGING_PAGESZ : Int)).toNat + c.PAGING_PAGESZ ≤ j →
        st[j]? = dst.storage[j]?) := by
  have hs := frame_base_nat c.PAGING_PAGESZ sf hsf
  have hd := frame_base_nat c.PAGING_PAGESZ df hdf
  have e1 : (sf + 1) * (c.PAGING_PAGESZ : Int) = sf * (c.PAGING_PAGESZ : Int) + c.PAGING_PAGESZ := by
    ring
  have e2 : (df + 1) * (c.PAGING_PAGESZ : Int) = df * (c.PAGING_PAGESZ : Int) + c.PAGING_PAGESZ := by
    ring
  generalize hsb : (sf * (c.PAGING_PAGESZ : Int)).toNat = sb at hs ⊢
  generalize hdb : (df * (c.PAGING_PAGESZ : Int)).toNat = db at hd ⊢
  obtain ⟨st, hst, hlen, hget⟩ :=
    swap_cp_loop_pair c junk sf df sb db hs hd src hsr hsl c.PAGING_PAGESZ 0 dst hdr
      (by omega) (by omega)
  refine ⟨st, ?_, hlen, ?_, ?_⟩
  · unfold __swap_cp_page
    rw [hst]
  · intro i hi
    rw [hget]
    have h1 : db + 0 ≤ db + i ∧ db + i < db + 0 + c.PAGING_PAGESZ := by omega
    have h2 : sb + (db + i - db) = sb + i := by omega
    rw [if_pos h1, h2]
  · intro j hj
    rw [hget]
    have h1 : ¬(db + 0 ≤ j ∧ j < db + 0 + c.PAGING_PAGESZ) := by omega
    rw [if_neg h1]

/-- C3. Copy fidelity.  For random-mode devices whose storage holds `maxsz` bytes and
frames `sf` inside the source and `df` inside the destination, `__swap_cp_page` returns
0, byte `i` of frame `df` of the destination afterwards is the byte that was at
position `i` of frame `sf` of the source, for every `i < PAGING_PAGESZ`, and every byte
of the destination outside frame `df` is as before; the source and the other fields of
the destination are unchanged.  This holds for two different devices (first part) and
when both pointers name the same device (second part). -/
theorem swap_cp_page_copy_fidelity (c : PagingCfg) (junk : Nat → BYTE)
    (src dst : memphy_struct) (sf df : Int)
    (hsr : src.rdmflg ≠ 0) (hdr : dst.rdmflg ≠ 0)
    (hsl : (src.storage.length : Int) = src.maxsz)
    (hdl : (dst.storage.length : Int) = dst.maxsz)
    (hsf : 0 ≤ sf) (hsin : (sf + 1) * (c.PAGING_PAGESZ : Int) ≤ src.maxsz)
    (hdf : 0 ≤ df) (hdin : (df + 1) * (c.PAGING_PAGESZ : Int) ≤ dst.maxsz) :
    (∃ st : List BYTE,
      __swap_cp_page c junk src sf dst df = some (0, src, { dst with storage := st }) ∧
      st.length = dst.storage.length ∧
      (∀ i, i < c.PAGING_PAGESZ →
        st[(df * (c.PAGING_PAGESZ : Int)).toNat + i]? =
          src.storage[(sf * (c.PAGING_PAGESZ : Int)).toNat + i]?) ∧
      (∀ j, j < (df * (c.PAGING_PAGESZ : Int)).toNat ∨
          (df * (c.PAGING_PAGESZ : Int)).toNat + c.PAGING_PAGESZ ≤ j →
        st[j]? = dst.storage[j]?)) ∧
    ((sf + 1) * (c.PAGING_PAGESZ : Int) ≤ dst.maxsz →
      ∃ st : List BYTE,
        __swap_cp_page_same c junk dst sf df = some (0, { dst with storage := st }) ∧
        st.length = dst.storage.length ∧
        (∀ i, i < c.PAGING_PAGESZ →
          st[(df * (c.PAGING_PAGESZ : Int)).toNat + i]? =
            dst.storage[(sf * (c.PAGING_PAGESZ : Int)).toNat + i]?) ∧
        (∀ j, j < (df * (c.PAGING_PAGESZ : Int)).toNat ∨
            (df * (c.PAGING_PAGESZ : Int)).toNat + c.PAGING_PAGESZ ≤ j →
          st[j]? = dst.storage[j]?)) := by
  have hpair := swap_cp_page_distinct c junk src dst sf df hsr hdr hsl hdl hsf hsin hdf hdin
  have hs := frame_base_nat c.PAGING_PAGESZ sf hsf
  have hd := frame_base_nat c.PAGING_PAGESZ df hdf
  have e1 : (sf + 1) * (c.PAGING_PAGESZ : Int) = sf * (c.PAGING_PAGESZ : Int) + c.PAGING_PAGESZ := by
    ring
  have e2 : (df + 1) * (c.PAGING_PAGESZ : Int) = df * (c.PAGING_PAGESZ : Int) + c.PAGING_PAGESZ := by
    ring
  refine ⟨hpair, ?_⟩
  clear hpair
  generalize hsb : (sf * (c.PAGING_PAGESZ : Int)).toNat = sb at hs ⊢
  generalize hdb : (df * (c.PAGING_PAGESZ : Int)).toNat = db at hd ⊢
  · intro hsin2
    by_cases hEq : sf = df
    · subst hEq
      have hsd : sb = db := by omega
      subst hsd
      have hloop := swap_cp_loop_same_frame c junk sf sb hs dst hdr hdl c.PAGING_PAGESZ 0
        (by omega)
      refine ⟨dst.storage, ?_, rfl, ?_, ?_⟩
      · unfold __swap_cp_page_same
        rw [hloop]
      · intro i _
        rfl
      · intro j _
        rfl
    · have hapart : sb + (0 + c.PAGING_PAGESZ) ≤ db ∨ db + (0 + c.PAGING_PAGESZ) ≤ sb := by
        rcases lt_or_gt_of_ne hEq with hlt | hgt
        · have h := frames_apart c.PAGING_PAGESZ sf df hsf hlt
          left; omega
        · have h := frames_apart c.PAGING_PAGESZ df sf hdf hgt
          right; omega
      obtain ⟨st, hst, hlen, hget⟩ :=
        swap_cp_loop_same_disjoint c junk sf df sb db hs hd c.PAGING_PAGESZ 0 dst hdr hdl
          (by omega) (by omega) hapart
      refine ⟨st, ?_, hlen, ?_, ?_⟩
      · unfold __swap_cp_page_same
        rw [hst]
      · intro i hi
        rw [hget]
        have h1 : db + 0 ≤ db + i ∧ db + i < db + 0 + c.PAGING_PAGESZ := by omega
        have h2 : sb + (db + i - db) = sb + i := by omega
        rw [if_pos h1, h2]
      · intro j hj
        rw [hget]
        have h1 : ¬(db + 0 ≤ j ∧ j < db + 0 + c.PAGING_PAGESZ) := by omega
        rw [if_neg h1]

/-- Instance of C3: frame 1 of `demoSrc` copied into frame 2 of `demoDst`, and frame 1
of `demoDst` (all `0xFF`) copied over frame 0 of the same device. -/
theorem swap_cp_page_copy_fidelity_witness :
    demoSrc.rdmflg ≠ 0 ∧ demoDst.rdmflg ≠ 0 ∧
    ((1 : Int) + 1) * (demoCfg.PAGING_PAGESZ : Int) ≤ demoSrc.maxsz ∧
    ((2 : Int) + 1) * (demoCfg.PAGING_PAGESZ : Int) ≤ demoDst.maxsz ∧
    (∃ st : List BYTE,
      __swap_cp_page demoCfg (fun _ => 0) demoSrc 1 demoDst 2 =
        some (0, demoSrc, { demoDst with storage := st }) ∧
      ∀ i, i < demoCfg.PAGING_PAGESZ →
        st[((2 : Int) * (demoCfg.PAGING_PAGESZ : Int)).toNat + i]? =
          demoSrc.storage[((1 : Int) * (demoCfg.PAGING_PAGESZ : Int)).toNat + i]?) ∧
    __swap_cp_page demoCfg (fun _ => 0) demoSrc 1 demoDst 2 =
      some (0, demoSrc, { demoDst with storage := [0, 0, 0, 0, 255, 255, 255, 255, 5, 6, 7, 8] }) ∧
    __swap_cp_page_same demoCfg (fun _ => 0) demoDst 1 0 =
      some (0, { demoDst with storage := [255, 255, 255, 255, 255, 255, 255, 255, 9, 9, 9, 9] }) :=
  have h := swap_cp_page_copy_fidelity demoCfg (fun _ => 0) demoSrc demoDst 1 2 (by decide)
    (by decide) (by decide) (by decide) (by decide) (by decide) (by decide) (by decide)
  ⟨by decide, by decide, by decide, by decide, h.1.imp fun _ hst => ⟨hst.1, hst.2.2.1⟩,
    by decide, by decide⟩

/-! ## Frame allocation -/

theorem get_freefp_cons (mp : memphy_struct) (h : Int) (rest : List Int)
    (hl : mp.free_fp_list = h :: rest) :
    MEMPHY_get_freefp mp = (0, some h, { mp with free_fp_list := rest }) := by
  unfold MEMPHY_get_freefp
  rw [hl]

theorem get_freefp_nil (mp : memphy_struct) (hl : mp.free_fp_list = []) :
    MEMPHY_get_freefp mp = (-1, none, mp) := by
  unfold MEMPHY_get_freefp
  rw [hl]

/-- While the RAM pool lasts, each round of the allocation loop moves its head onto the
frame list and touches nothing else. -/
theorem alloc_loop_take (c : PagingCfg) (policy : VictimPolicy) (junk : Nat → BYTE) :
    ∀ (fs rest : List Int) (k : Nat) (caller : pcb_t) (frm_lst : List Int),
      caller.mram.free_fp_list = fs ++ rest →
      alloc_loop c policy junk (fs.length + k) caller frm_lst =
        alloc_loop c policy junk k
          { caller with mram := { caller.mram with free_fp_list := rest } }
          (fs.reverse ++ frm_lst) := by
  intro fs
  induction fs with
  | nil =>
    intro rest k caller frm_lst h
    simp only [List.nil_append] at h
    simp only [List.length_nil, Nat.zero_add, List.reverse_nil, List.nil_append]
    rw [← h]
  | cons a fs ih =>
    intro rest k caller frm_lst h
    have e : (a :: fs).length + k = (fs.length + k) + 1 := by simp; omega
    rw [e, alloc_loop, get_freefp_cons caller.mram a (fs ++ rest) (by simpa using h)]
    simp only
    rw [ih rest k _ (a :: frm_lst) rfl]
    simp

/-- A round of the allocation loop that finds the RAM pool empty and gets no victim, or
no swap frame, fails: with -1 when the frame list is empty, with -3000 otherwise; the
page directory and both devices stay as they are. -/
theorem alloc_loop_shortfall (c : PagingCfg) (policy : VictimPolicy) (junk : Nat → BYTE)
    (k : Nat) (caller : pcb_t) (frm_lst : List Int) (hram : caller.mram.free_fp_list = [])
    (hno : policy caller.mm = none ∨ caller.active_mswp.free_fp_list = []) :
    ∃ fifo1 : List Nat,
      alloc_loop c policy junk (k + 1) caller frm_lst =
        some (if frm_lst = [] then -1 else -3000,
          { caller with mm := { caller.mm with fifo_pgn := fifo1 } }, []) ∧
      (policy caller.mm = none → fifo1 = caller.mm.fifo_pgn) := by
  rw [alloc_loop, get_freefp_nil caller.mram hram]
  simp only
  cases hp : policy caller.mm with
  | none =>
    refine ⟨caller.mm.fifo_pgn, ?_, fun _ => rfl⟩
    by_cases hl : frm_lst = []
    · simp [hl]
    · simp [hl]
  | some r =>
    obtain ⟨vicpgn, fifo1⟩ := r
    have hs : caller.active_mswp.free_fp_list = [] := by
      rcases hno with h | h
      · rw [hp] at h; exact absurd h (by simp)
      · exact h
    refine ⟨fifo1, ?_, fun h => by simp at h⟩
    simp only
    rw [get_freefp_nil _ hs]
    by_cases hl : frm_lst = []
    · simp [hl]
    · simp [hl]

/-- C5. Exhaustion with nothing bound is atomic: with an empty RAM pool and a policy
that offers no page, `alloc_pages_range` for `n ≥ 1` pages returns -1 (not -3000),
`vm_map_ram` returns -1, and the whole process state (RAM pool, swap pool, page
directory, replacement history) is the one before the call. -/
theorem exhaustion_without_victim_is_atomic (c : PagingCfg) (policy : VictimPolicy)
    (junk : Nat → BYTE) (caller : pcb_t) (n astart aend mapstart : Int) (rg : vm_rg_struct)
    (hram : caller.mram.free_fp_list = []) (hpol : policy caller.mm = none) (hn : 1 ≤ n) :
    alloc_pages_range c policy junk caller n [] = some (-1, caller, []) ∧
    vm_map_ram c policy junk caller astart aend mapstart n rg = some (-1, rg, caller) := by
  have hk : n.toNat = (n.toNat - 1) + 1 := by omega
  obtain ⟨fifo1, hrun, hfifo⟩ :=
    alloc_loop_shortfall c policy junk (n.toNat - 1) caller [] hram (Or.inl hpol)
  have hrun2 : alloc_pages_range c policy junk caller n [] = some (-1, caller, []) := by
    unfold alloc_pages_range
    rw [hk, hrun, hfifo hpol]
    simp
  refine ⟨hrun2, ?_⟩
  unfold vm_map_ram
  rw [hrun2]
  simp

/-- Instance of C5: the process `demoProc1` (RAM pool empty) asks for three pages under
the policy that never offers a page. -/
theorem exhaustion_without_victim_is_atomic_witness :
    demoProc1.mram.free_fp_list = [] ∧ noVictim demoProc1.mm = none ∧
    alloc_pages_range demoCfg noVictim (fun _ => 0) demoProc1 3 [] =
      some (-1, demoProc1, []) ∧
    vm_map_ram demoCfg noVictim (fun _ => 0) demoProc1 0 16 8 3 ⟨0, 0⟩ =
      some (-1, ⟨0, 0⟩, demoProc1) :=
  have h := exhaustion_without_victim_is_atomic demoCfg noVictim (fun _ => 0) demoProc1 3 0
    16 8 ⟨0, 0⟩ rfl rfl (by decide)
  ⟨rfl, rfl, h.1, h.2⟩

/-- C6, what the code does.  When the RAM pool holds `k` frames with `0 < k < n` and the
round after the last free frame gets no victim or no swap frame, `alloc_pages_range`
returns -3000 with an empty frame list, and the RAM pool is left empty: the `k` frames
taken from it are not put back. -/
theorem partial_failure_leaves_ram_pool_empty (c : PagingCfg) (policy : VictimPolicy)
    (junk : Nat → BYTE) (caller : pcb_t) (n : Int)
    (hk0 : caller.mram.free_fp_list ≠ [])
    (hkn : (caller.mram.free_fp_list.length : Int) < n)
    (hno : policy caller.mm = none ∨ caller.active_mswp.free_fp_list = []) :
    ∃ caller1 : pcb_t,
      alloc_pages_range c policy junk caller n [] = some (-3000, caller1, []) ∧
      caller1.mram.free_fp_list = [] ∧ caller1.mram.free_fp_list ≠ caller.mram.free_fp_list := by
  have hk : n.toNat =
      caller.mram.free_fp_list.length + ((n.toNat - caller.mram.free_fp_list.length - 1) + 1) := by
    omega
  have htake := alloc_loop_take c policy junk caller.mram.free_fp_list []
    ((n.toNat - caller.mram.free_fp_list.length - 1) + 1) caller [] (by simp)
  obtain ⟨fifo1, hrun, _⟩ :=
    alloc_loop_shortfall c policy junk (n.toNat - caller.mram.free_fp_list.length - 1)
      { caller with mram := { caller.mram with free_fp_list := [] } }
      (caller.mram.free_fp_list.reverse ++ []) rfl hno
  have hne : ¬(caller.mram.free_fp_list.reverse ++ [] = []) := by simpa using hk0
  rw [if_neg hne] at hrun
  refine ⟨{ mram := { caller.mram with free_fp_list := [] }
            active_mswp := caller.active_mswp
            mm := { caller.mm with fifo_pgn := fifo1 } }, ?_, ?_, ?_⟩
  · unfold alloc_pages_range
    rw [hk, htake, hrun]
  · rfl
  · exact fun h => hk0 h.symm

/-- Instance of C6: `demoProc0` holds two free RAM frames and asks for three pages while
no page is evictable; the call returns -3000 and the pool `0, 1` is left empty. -/
theorem partial_failure_leaves_ram_pool_empty_witness :
    demoProc0.mram.free_fp_list = [0, 1] ∧
    alloc_pages_range demoCfg noVictim (fun _ => 0) demoProc0 3 [] =
      some (-3000, { demoProc0 with mram := { demoProc0.mram with free_fp_list := [] } }, []) ∧
    (∃ caller1 : pcb_t,
      alloc_pages_range demoCfg noVictim (fun _ => 0) demoProc0 3 [] =
        some (-3000, caller1, []) ∧
      caller1.mram.free_fp_list = [] ∧
      caller1.mram.free_fp_list ≠ demoProc0.mram.free_fp_list) :=
  ⟨rfl, by decide,
    partial_failure_leaves_ram_pool_empty demoCfg noVictim (fun _ => 0) demoProc0 3
      (by decide) (by decide) (Or.inl rfl)⟩

/-- C7, what the code does.  `demoProc1` (reached from `demoProc0` by mapping pages 0 and
1) asks for two pages with an empty RAM pool and a single free swap frame.  The first
page is satisfied by evicting page 0 into swap frame 0; the second finds the swap device
full and the call returns -3000 through the branch that only frees the frame list.
Page 0 is left rewritten to `Swapped 0 0`, the swap pool is left empty, and frame 1,
which page 0 held, is in no pool and in no entry. -/
theorem failed_alloc_after_eviction_keeps_victim_swapped :
    vm_map_ram demoCfg fifoPolicy (fun _ => 0) demoProc0 0 8 0 2 ⟨0, 0⟩ =
      some (0, ⟨0, 8⟩, demoProc1) ∧
    alloc_pages_range demoCfg fifoPolicy (fun _ => 0) demoProc1 2 [] =
      some (-3000,
        { mram := demoProc1.mram
          active_mswp := ⟨[5, 6, 7, 8], 4, 1, 0, []⟩
          mm := ⟨[3221225472, 2147483648, 0, 0], []⟩ }, []) ∧
    decode demoCfg 2147483649 = PageTableEntry.Resident 1 ∧
    decode demoCfg 3221225472 = PageTableEntry.Swapped 0 0 ∧
    ([3221225472, 2147483648, 0, 0] : List Nat) ≠ demoProc1.mm.pgd ∧
    ([] : List Int) ≠ demoProc1.active_mswp.free_fp_list ∧
    residentFrames demoCfg demoProc1.mm.pgd = [1, 0] ∧
    residentFrames demoCfg [3221225472, 2147483648, 0, 0] = [0] ∧
    demoProc1.mram.free_fp_list = [] := by
  decide

/-- A call of `alloc_pages_range` that fails at the first page the RAM pool
cannot supply (the policy offers no page, or the swap pool is empty), so that no page of
the batch was satisfied by eviction, returns -1 when the RAM pool was empty and -3000
otherwise, and leaves every page-directory entry and the swap device as they were. -/
theorem failed_alloc_without_eviction_keeps_mappings (c : PagingCfg) (policy : VictimPolicy)
    (junk : Nat → BYTE) (caller : pcb_t) (n : Int)
    (hkn : (caller.mram.free_fp_list.length : Int) < n)
    (hno : policy caller.mm = none ∨ caller.active_mswp.free_fp_list = []) :
    ∃ caller1 : pcb_t,
      alloc_pages_range c policy junk caller n [] =
        some (if caller.mram.free_fp_list = [] then -1 else -3000, caller1, []) ∧
      caller1.mm.pgd = caller.mm.pgd ∧ caller1.active_mswp = caller.active_mswp := by
  have hk : n.toNat =
      caller.mram.free_fp_list.length + ((n.toNat - caller.mram.free_fp_list.length - 1) + 1) := by
    omega
  have htake := alloc_loop_take c policy junk caller.mram.free_fp_list []
    ((n.toNat - caller.mram.free_fp_list.length - 1) + 1) caller [] (by simp)
  obtain ⟨fifo1, hrun, _⟩ :=
    alloc_loop_shortfall c policy junk (n.toNat - caller.mram.free_fp_list.length - 1)
      { caller with mram := { caller.mram with free_fp_list := [] } }
      (caller.mram.free_fp_list.reverse ++ []) rfl hno
  have hiff : (caller.mram.free_fp_list.reverse ++ [] = []) ↔ caller.mram.free_fp_list = [] := by
    simp
  refine ⟨{ mram := { caller.mram with free_fp_list := [] }
            active_mswp := caller.active_mswp
            mm := { caller.mm with fifo_pgn := fifo1 } }, ?_, rfl, rfl⟩
  unfold alloc_pages_range
  rw [hk, htake, hrun]
  by_cases hl : caller.mram.free_fp_list = []
  · rw [if_pos hl, if_pos (hiff.mpr hl)]
  · rw [if_neg hl, if_neg (fun h => hl (hiff.mp h))]

/-- Instance of the previous statement: `demoProcSwapFull` (RAM pool and swap pool both empty) asks
for two pages under the FIFO policy; the call fails with -1, the page directory and the
swap device are unchanged, and only the history entry the policy consumed is gone. -/
theorem failed_alloc_without_eviction_keeps_mappings_witness :
    (demoProcSwapFull.mram.free_fp_list.length : Int) < 2 ∧
    demoProcSwapFull.active_mswp.free_fp_list = [] ∧
    alloc_pages_range demoCfg fifoPolicy (fun _ => 0) demoProcSwapFull 2 [] =
      some (-1, { demoProcSwapFull with mm := ⟨demoProcSwapFull.mm.pgd, [1]⟩ }, []) ∧
    ∃ caller1 : pcb_t,
      alloc_pages_range demoCfg fifoPolicy (fun _ => 0) demoProcSwapFull 2 [] =
        some (if demoProcSwapFull.mram.free_fp_list = [] then -1 else -3000, caller1, []) ∧
      caller1.mm.pgd = demoProcSwapFull.mm.pgd ∧
      caller1.active_mswp = demoProcSwapFull.active_mswp :=
  ⟨by decide, rfl, by decide,
    failed_alloc_without_eviction_keeps_mappings demoCfg fifoPolicy (fun _ => 0)
      demoProcSwapFull 2 (by decide) (Or.inr rfl)⟩

/-! ## Eviction -/

theorem GETVAL_lt (v h l : Nat) : GETVAL v (GENMASK h l) l < fieldCard h l := by
  unfold fieldCard
  apply Nat.lt_pow_two_of_testBit
  intro i hi
  rw [testBit_GETVAL]
  have : ¬(l + i ≤ h) := by omega
  simp [this]

theorem PAGING_FPN_lt (c : PagingCfg) (pte : Nat) :
    PAGING_FPN c pte < fieldCard c.PAGING_PTE_FPN_HIBIT c.PAGING_PTE_FPN_LOBIT :=
  GETVAL_lt _ _ _

theorem fieldCard_fpn_le (c : PagingCfg) (hc : c.WF) :
    fieldCard c.PAGING_PTE_FPN_HIBIT c.PAGING_PTE_FPN_LOBIT ≤ 2147483648 := by
  unfold fieldCard
  have e : (2147483648 : Nat) = 2 ^ 31 := by norm_num
  rw [e]
  apply Nat.pow_le_pow_right (by decide)
  have h1 := hc.fpn_lt
  have h2 := hc.fpn_present
  have h3 := hc.present_lt
  omega

theorem i32_PAGING_FPN (c : PagingCfg) (hc : c.WF) (pte : Nat) :
    i32 (PAGING_FPN c pte) = (PAGING_FPN c pte : Int) := by
  unfold i32
  have h1 := PAGING_FPN_lt c pte
  have h2 := fieldCard_fpn_le c hc
  rw [if_pos (by omega)]

theorem decode_resident_inv (c : PagingCfg) (pte f : Nat)
    (h : decode c pte = PageTableEntry.Resident f) :
    pte_present c pte = true ∧ pte_swapped c pte = false ∧ PAGING_FPN c pte = f := by
  unfold decode at h
  cases hp : pte_present c pte <;> cases hs : pte_swapped c pte <;> simp [hp, hs] at h
  exact ⟨rfl, rfl, h⟩

/-- One round of the allocation loop that evicts: the RAM pool is empty, the policy
offers `vicpgn`, the swap pool has head `swpfpn`, and the copy goes through. -/
theorem alloc_loop_evict (c : PagingCfg) (policy : VictimPolicy) (junk : Nat → BYTE) (k : Nat)
    (caller : pcb_t) (frm_lst : List Int) (vicpgn : Nat) (fifo1 : List Nat) (swpfpn : Int)
    (rest : List Int) (vicpte : Nat) (mram2 mswp2 : memphy_struct)
    (hram : caller.mram.free_fp_list = [])
    (hpol : policy caller.mm = some (vicpgn, fifo1))
    (hswp : caller.active_mswp.free_fp_list = swpfpn :: rest)
    (hpte : caller.mm.pgd[vicpgn]? = some vicpte)
    (hcp : __swap_cp_page c junk caller.mram (i32 (PAGING_FPN c vicpte))
      { caller.active_mswp with free_fp_list := rest } swpfpn = some (0, mram2, mswp2)) :
    alloc_loop c policy junk (k + 1) caller frm_lst =
      alloc_loop c policy junk k
        { mram := mram2, active_mswp := mswp2,
          mm := { pgd := caller.mm.pgd.set vicpgn (swappedEntry c 0 swpfpn), fifo_pgn := fifo1 } }
        (i32 (PAGING_FPN c vicpte) :: frm_lst) := by
  rw [alloc_loop, get_freefp_nil caller.mram hram]
  simp only [hpol]
  rw [get_freefp_cons caller.active_mswp swpfpn rest hswp]
  simp only [hpte, hcp, pte_set_swap_eq]

theorem fieldCard_pos (h l : Nat) : (0 : Int) < fieldCard h l := by
  unfold fieldCard
  exact_mod_cast Nat.pos_pow_of_pos _ (by decide)

/-- C4 fails as stated.  On `demoProc1` the RAM pool is empty, the FIFO policy offers page
0 whose entry is `Resident 1`, the swap pool has a head, and page 2 (address 8) is
mapped; `vm_map_ram` returns 0 each time.  (a) With a swap device in sequential mode,
`MEMPHY_write` fails on every byte, `__swap_cp_page` ignores the status, and swap frame 0
still holds `0, 0, 0, 0` while RAM frame 1 held `5, 6, 7, 8`.  (b) With a RAM device in
sequential mode, `MEMPHY_read` fails on every byte and the swap frame receives the
uninitialised local `data` (here 170) instead.  (c) With a swap-offset field of one bit
and swap pool head 2, the entry of page 0 decodes to `Swapped 0 0`, not `Swapped 0 2`. -/
theorem eviction_counterexamples :
    (demoProcSeqSwap.mram.free_fp_list = [] ∧
      fifoPolicy demoProcSeqSwap.mm = some (0, [1]) ∧
      (demoProcSeqSwap.mm.pgd[0]?).map (decode demoCfg) = some (PageTableEntry.Resident 1) ∧
      demoProcSeqSwap.active_mswp.free_fp_list = [0] ∧
      PAGING_PGN demoCfg 8 = 2 ∧
      vm_map_ram demoCfg fifoPolicy (fun _ => 0) demoProcSeqSwap 0 16 8 1 ⟨0, 0⟩ =
        some (0, ⟨8, 12⟩,
          { mram := ⟨[1, 2, 3, 4, 5, 6, 7, 8], 8, 1, 0, []⟩
            active_mswp := ⟨[0, 0, 0, 0], 4, 0, 0, []⟩
            mm := ⟨[3221225472, 2147483648, 2147483649, 0], [2, 1]⟩ }) ∧
      ([0, 0, 0, 0] : List BYTE) ≠ (demoProcSeqSwap.mram.storage.drop 4).take 4) ∧
    (vm_map_ram demoCfg fifoPolicy (fun _ => 170) demoProcSeqRam 0 16 8 1 ⟨0, 0⟩ =
        some (0, ⟨8, 12⟩,
          { mram := ⟨[1, 2, 3, 4, 5, 6, 7, 8], 8, 0, 0, []⟩
            active_mswp := ⟨[170, 170, 170, 170], 4, 1, 0, []⟩
            mm := ⟨[3221225472, 2147483648, 2147483649, 0], [2, 1]⟩ }) ∧
      ([170, 170, 170, 170] : List BYTE) ≠ (demoProcSeqRam.mram.storage.drop 4).take 4) ∧
    (narrowOffCfg.WF ∧
      (demoProcSwapHead2.mm.pgd[0]?).map (decode narrowOffCfg) =
        some (PageTableEntry.Resident 1) ∧
      demoProcSwapHead2.active_mswp.free_fp_list = [2, 0, 1] ∧
      vm_map_ram narrowOffCfg fifoPolicy (fun _ => 0) demoProcSwapHead2 0 16 8 1 ⟨0, 0⟩ =
        some (0, ⟨8, 12⟩,
          { mram := ⟨[1, 2, 3, 4, 5, 6, 7, 8], 8, 1, 0, []⟩
            active_mswp := ⟨[0, 0, 0, 0, 0, 0, 0, 0, 5, 6, 7, 8], 12, 1, 0, [0, 1]⟩
            mm := ⟨[3221225472, 2147483648, 2147483649, 0], [2, 1]⟩ }) ∧
      decode narrowOffCfg 3221225472 = PageTableEntry.Swapped 0 0 ∧
      decode narrowOffCfg 3221225472 ≠ PageTableEntry.Swapped 0 2) := by
  decide

/-- C4, amended.  Eviction.  The RAM pool is empty, the policy offers page `v` whose entry is
`Resident f`, and the swap pool has head `s`.  Then `vm_map_ram` for one page
`q = PAGING_PGN mapstart`, `q ≠ v`, returns 0 and afterwards the entry of `v` decodes to
`Swapped 0 s`, the entry of `q` decodes to `Resident f`, swap frame `s` holds the bytes
RAM frame `f` held, `s` is gone from the swap pool, the RAM device is unchanged with its
pool still empty, and every other page-directory entry is unchanged.  Both devices are
random-mode devices whose storage holds `maxsz` bytes, `f` is a frame of the RAM
device, `s` a frame of the swap device that fits the swap-offset field, and `v`, `q`
are inside the page directory. -/
theorem eviction_maps_new_page (c : PagingCfg) (hc : c.WF) (policy : VictimPolicy)
    (junk : Nat → BYTE) (caller : pcb_t) (astart aend mapstart : Int) (rg : vm_rg_struct)
    (v : Nat) (fifo1 : List Nat) (e f : Nat) (s : Int) (rest : List Int)
    (hram : caller.mram.free_fp_list = [])
    (hpol : policy caller.mm = some (v, fifo1))
    (hve : caller.mm.pgd[v]? = some e) (hres : decode c e = PageTableEntry.Resident f)
    (hswp : caller.active_mswp.free_fp_list = s :: rest)
    (hq : PAGING_PGN c mapstart < caller.mm.pgd.length) (hqv : PAGING_PGN c mapstart ≠ v)
    (hrr : caller.mram.rdmflg ≠ 0) (hsr : caller.active_mswp.rdmflg ≠ 0)
    (hrl : (caller.mram.storage.length : Int) = caller.mram.maxsz)
    (hsl : (caller.active_mswp.storage.length : Int) = caller.active_mswp.maxsz)
    (hfin : ((f : Int) + 1) * (c.PAGING_PAGESZ : Int) ≤ caller.mram.maxsz)
    (hs0 : 0 ≤ s) (hsin : (s + 1) * (c.PAGING_PAGESZ : Int) ≤ caller.active_mswp.maxsz)
    (hsfit : s < fieldCard c.PAGING_PTE_SWPOFF_HIBIT c.PAGING_PTE_SWPOFF_LOBIT) :
    ∃ caller1 : pcb_t,
      vm_map_ram c policy junk caller astart aend mapstart 1 rg =
        some (0, ⟨mapstart, int32 (mapstart + int32 (1 * (c.PAGING_PAGESZ : Int)))⟩, caller1) ∧
      (caller1.mm.pgd[v]?).map (decode c) = some (PageTableEntry.Swapped 0 s.toNat) ∧
      (caller1.mm.pgd[PAGING_PGN c mapstart]?).map (decode c) =
        some (PageTableEntry.Resident f) ∧
      (∀ i, i < c.PAGING_PAGESZ →
        caller1.active_mswp.storage[(s * (c.PAGING_PAGESZ : Int)).toNat + i]? =
          caller.mram.storage[((f : Int) * (c.PAGING_PAGESZ : Int)).toNat + i]?) ∧
      caller1.active_mswp.free_fp_list = rest ∧
      caller1.mram = caller.mram ∧ caller1.mram.free_fp_list = [] ∧
      (∀ p, p ≠ v → p ≠ PAGING_PGN c mapstart → caller1.mm.pgd[p]? = caller.mm.pgd[p]?) := by
  obtain ⟨_, _, hfpn⟩ := decode_resident_inv c e f hres
  have hi32 : i32 (PAGING_FPN c e) = (f : Int) := by
    rw [i32_PAGING_FPN c hc, hfpn]
  have hflt : (f : Int) < fieldCard c.PAGING_PTE_FPN_HIBIT c.PAGING_PTE_FPN_LOBIT := by
    have := PAGING_FPN_lt c e
    rw [hfpn] at this
    exact_mod_cast this
  have hvlt : v < caller.mm.pgd.length := by
    rcases Nat.lt_or_ge v caller.mm.pgd.length with h | h
    · exact h
    · rw [List.getElem?_eq_none h] at hve
      exact absurd hve (by simp)
  obtain ⟨st, hcp, hlen, hbytes, _⟩ :=
    swap_cp_page_distinct c junk caller.mram { caller.active_mswp with free_fp_list := rest }
      (f : Int) s hrr hsr hrl hsl (Int.ofNat_nonneg f) hfin hs0 hsin
  rw [← hi32] at hcp
  have halloc := alloc_loop_evict c policy junk 0 caller [] v fifo1 s rest e _ _ hram hpol
    hswp hve hcp
  rw [hi32] at halloc
  have hq1 : PAGING_PGN c mapstart < (caller.mm.pgd.set v (swappedEntry c 0 s)).length := by
    simpa using hq
  refine ⟨{ mram := caller.mram,
            active_mswp :=
              { ({ caller.active_mswp with free_fp_list := rest } : memphy_struct) with
                storage := st },
            mm := { pgd := (caller.mm.pgd.set v (swappedEntry c 0 s)).set
                      (PAGING_PGN c mapstart) (residentEntry c f),
                    fifo_pgn := PAGING_PGN c mapstart :: fifo1 } }, ?_, ?_, ?_, ?_, rfl, rfl,
          hram, ?_⟩
  · unfold vm_map_ram alloc_pages_range
    have e1 : (1 : Int).toNat = 0 + 1 := rfl
    rw [e1, halloc]
    simp only [alloc_loop]
    unfold vmap_page_range
    rw [e1]
    simp only [vmap_loop, List.getElem?_eq_getElem hq1, pte_set_fpn_eq c hc, enlist_pgn_node,
      Nat.add_zero]
    simp
  · simp only [List.getElem?_set]
    rw [if_neg hqv]
    simp only [if_true, hvlt, Option.map_some']
    rw [decode_swappedEntry c hc 0 s (le_refl 0) (fieldCard_pos _ _) hs0 hsfit]
    rfl
  · simp only [List.getElem?_set, List.length_set, if_true, hq, Option.map_some']
    rw [decode_residentEntry c hc f (Int.ofNat_nonneg f) hflt]
    rfl
  · intro i hi
    exact hbytes i hi
  · intro p hpv hpq
    simp only [List.getElem?_set]
    rw [if_neg (fun h => hpq h.symm), if_neg (fun h => hpv h.symm)]

/-- Instance of C4: `demoProc1` maps page 2 (address 8) under the FIFO policy.  Page 0,
resident in frame 1, is evicted to swap frame 0 and page 2 takes frame 1. -/
theorem eviction_maps_new_page_witness :
    demoProc1.mram.free_fp_list = [] ∧
    fifoPolicy demoProc1.mm = some (0, [1]) ∧
    decode demoCfg 2147483649 = PageTableEntry.Resident 1 ∧
    demoProc1.active_mswp.free_fp_list = [0] ∧
    PAGING_PGN demoCfg 8 = 2 ∧
    vm_map_ram demoCfg fifoPolicy (fun _ => 0) demoProc1 0 16 8 1 ⟨0, 0⟩ =
      some (0, ⟨8, 12⟩,
        { mram := demoProc1.mram
          active_mswp := ⟨[5, 6, 7, 8], 4, 1, 0, []⟩
          mm := ⟨[3221225472, 2147483648, 2147483649, 0], [2, 1]⟩ }) ∧
    (∃ caller1 : pcb_t,
      vm_map_ram demoCfg fifoPolicy (fun _ => 0) demoProc1 0 16 8 1 ⟨0, 0⟩ =
        some (0, ⟨8, int32 (8 + int32 (1 * (demoCfg.PAGING_PAGESZ : Int)))⟩, caller1) ∧
      (caller1.mm.pgd[0]?).map (decode demoCfg) =
        some (PageTableEntry.Swapped 0 (0 : Int).toNat) ∧
      (caller1.mm.pgd[PAGING_PGN demoCfg 8]?).map (decode demoCfg) =
        some (PageTableEntry.Resident 1)) :=
  have h := eviction_maps_new_page demoCfg demoCfg_WF fifoPolicy (fun _ => 0) demoProc1 0 16 8
    ⟨0, 0⟩ 0 [1] 2147483649 1 0 [] rfl (by decide) (by decide) (by decide) rfl (by decide)
    (by decide) (by decide) (by decide) (by decide) (by decide) (by decide) (by decide)
    (by decide) (by decide)
  ⟨rfl, by decide, by decide, rfl, by decide, by decide,
    h.imp fun _ hc => ⟨hc.1, hc.2.1, hc.2.2.1⟩⟩

/-! ## Frame conservation -/

theorem filterMap_cons_toList {α β : Type} (g : α → Option β) (a : α) (l : List α) :
    (a :: l).filterMap g = (g a).toList ++ l.filterMap g := by
  cases h : g a <;> simp [List.filterMap_cons, h]

theorem filterMap_set_perm {α β : Type} (g : α → Option β) :
    ∀ (l : List α) (v : Nat) (e e' : α), l[v]? = some e →
      List.Perm ((g e).toList ++ (l.set v e').filterMap g)
        ((g e').toList ++ l.filterMap g) := by
  intro l
  induction l with
  | nil => intro v e e' h; simp at h
  | cons a l ih =>
    intro v e e' h
    cases v with
    | zero =>
      simp only [List.getElem?_cons_zero, Option.some.injEq] at h
      subst h
      rw [List.set_cons_zero, filterMap_cons_toList, filterMap_cons_toList,
        ← List.append_assoc, ← List.append_assoc]
      exact List.Perm.append_right _ List.perm_append_comm
    | succ v =>
      simp only [List.getElem?_cons_succ] at h
      rw [List.set_cons_succ, filterMap_cons_toList, filterMap_cons_toList]
      have h1 := ih v e e' h
      have p1 : List.Perm ((g e).toList ++ ((g a).toList ++ List.filterMap g (l.set v e')))
          ((g a).toList ++ ((g e).toList ++ List.filterMap g (l.set v e'))) := by
        rw [← List.append_assoc, ← List.append_assoc]
        exact List.Perm.append_right _ List.perm_append_comm
      have p2 : List.Perm ((g a).toList ++ ((g e).toList ++ List.filterMap g (l.set v e')))
          ((g a).toList ++ ((g e').toList ++ List.filterMap g l)) :=
        List.Perm.append_left _ h1
      have p3 : List.Perm ((g a).toList ++ ((g e').toList ++ List.filterMap g l))
          ((g e').toList ++ ((g a).toList ++ List.filterMap g l)) := by
        rw [← List.append_assoc, ← List.append_assoc]
        exact List.Perm.append_right _ List.perm_append_comm
      exact (p1.trans p2).trans p3

theorem MEMPHY_read_state (mp mp1 : memphy_struct) (addr r : Int) (v : Option BYTE)
    (h : MEMPHY_read mp addr = some (r, v, mp1)) : mp1 = mp := by
  unfold MEMPHY_read at h
  by_cases hg : mp.rdmflg = 0 ∨ addr < 0 ∨ addr ≥ mp.maxsz
  · rw [if_pos hg] at h
    simp only [Option.some.injEq, Prod.mk.injEq] at h
    exact h.2.2.symm
  · rw [if_neg hg] at h
    have hr : mp.rdmflg ≠ 0 := fun h0 => hg (Or.inl h0)
    rw [if_pos hr] at h
    cases hb : mp.storage[addr.toNat]? with
    | none => rw [hb] at h; simp at h
    | some b =>
      rw [hb] at h
      simp only [Option.some.injEq, Prod.mk.injEq] at h
      exact h.2.2.symm

theorem swap_cp_loop_pair_src (c : PagingCfg) (junk : Nat → BYTE) (sf df : Int) :
    ∀ (k i : Nat) (src dst : memphy_struct) (s1 : memphy_struct × memphy_struct),
      swap_cp_loop
        (fun s addr => (MEMPHY_read s.1 addr).map fun r => (r.1, r.2.1, (r.2.2, s.2)))
        (fun s addr data => (MEMPHY_write s.2 addr data).map fun r => (r.1, (s.1, r.2)))
        c sf df junk k i (src, dst) = some s1 → s1.1 = src := by
  intro k
  induction k with
  | zero =>
    intro i src dst s1 h
    simp only [swap_cp_loop, Option.some.injEq] at h
    rw [← h]
  | succ k ih =>
    intro i src dst s1 h
    rw [swap_cp_loop] at h
    simp only at h
    cases hrd : MEMPHY_read src (sf * (c.PAGING_PAGESZ : Int) + (i : Int)) with
    | none => rw [hrd] at h; simp at h
    | some rr =>
      obtain ⟨r, v, src1⟩ := rr
      have hsrc := MEMPHY_read_state src src1 _ r v hrd
      subst hsrc
      rw [hrd] at h
      simp only [Option.map_some'] at h
      cases hwr : MEMPHY_write dst (df * (c.PAGING_PAGESZ : Int) + (i : Int))
          (v.getD (junk i)) with
      | none => rw [hwr] at h; simp at h
      | some ww =>
        obtain ⟨r2, dst1⟩ := ww
        rw [hwr] at h
        simp only [Option.map_some'] at h
        exact ih (i + 1) src1 dst1 s1 h

theorem swap_cp_page_src (c : PagingCfg) (junk : Nat → BYTE) (src dst m2 s2 : memphy_struct)
    (sf df r : Int) (h : __swap_cp_page c junk src sf dst df = some (r, m2, s2)) :
    m2 = src := by
  unfold __swap_cp_page at h
  cases hl : swap_cp_loop
      (fun s addr => (MEMPHY_read s.1 addr).map fun r => (r.1, r.2.1, (r.2.2, s.2)))
      (fun s addr data => (MEMPHY_write s.2 addr data).map fun r => (r.1, (s.1, r.2)))
      c sf df junk c.PAGING_PAGESZ 0 (src, dst) with
  | none => rw [hl] at h; simp at h
  | some s1 =>
    rw [hl] at h
    simp only [Option.some.injEq, Prod.mk.injEq] at h
    rw [← h.2.1]
    exact swap_cp_loop_pair_src c junk sf df _ _ src dst s1 hl

theorem residentFrame_of_decode (c : PagingCfg) (e f : Nat)
    (h : decode c e = PageTableEntry.Resident f) : residentFrame c e = some (f : Int) := by
  unfold residentFrame
  rw [h]

theorem residentFrame_swappedEntry (c : PagingCfg) (hc : c.WF) (t o : Int) :
    residentFrame c (swappedEntry c t o) = none := by
  unfold residentFrame decode
  rw [swappedEntry_present c hc, swappedEntry_swapped c hc]
  rfl

theorem residentFrame_residentEntry (c : PagingCfg) (hc : c.WF) (f : Int) (h0 : 0 ≤ f)
    (hlt : f < fieldCard c.PAGING_PTE_FPN_HIBIT c.PAGING_PTE_FPN_LOBIT) :
    residentFrame c (residentEntry c f) = some f := by
  unfold residentFrame
  rw [decode_residentEntry c hc f h0 hlt]
  simp only [Option.some.injEq]
  exact Int.toNat_of_nonneg h0

/-- Rewriting a resident entry to a non-resident one releases its frame. -/
theorem residentFrames_release (c : PagingCfg) (pgd : List Nat) (v e e1 : Nat) (f : Int)
    (hv : pgd[v]? = some e) (he : residentFrame c e = some f)
    (he1 : residentFrame c e1 = none) :
    List.Perm (f :: residentFrames c (pgd.set v e1)) (residentFrames c pgd) := by
  have h := filterMap_set_perm (residentFrame c) pgd v e e1 hv
  rw [he, he1] at h
  exact h

/-- Rewriting a non-resident entry to a resident one binds its frame. -/
theorem residentFrames_bind (c : PagingCfg) (pgd : List Nat) (v e e1 : Nat) (g : Int)
    (hv : pgd[v]? = some e) (he : residentFrame c e = none)
    (he1 : residentFrame c e1 = some g) :
    List.Perm (residentFrames c (pgd.set v e1)) (g :: residentFrames c pgd) := by
  have h := filterMap_set_perm (residentFrame c) pgd v e e1 hv
  rw [he, he1] at h
  exact h

theorem NotResidentAt_set_swapped (c : PagingCfg) (hc : c.WF) (pgd : List Nat) (p v : Nat)
    (t o : Int) (h : NotResidentAt c pgd p) :
    NotResidentAt c (pgd.set v (swappedEntry c t o)) p := by
  unfold NotResidentAt at h ⊢
  rw [List.getElem?_set]
  by_cases hvp : v = p
  · rw [if_pos hvp]
    by_cases hl : v < pgd.length
    · rw [if_pos hl]
      exact residentFrame_swappedEntry c hc t o
    · rw [if_neg hl]
      rfl
  · rw [if_neg hvp]
    exact h

/-- The allocation loop keeps the frames of pool, frame list and resident entries
together: a successful run only moves frames from the pool, or from an evicted entry,
onto the frame list. -/
theorem alloc_loop_conserves (c : PagingCfg) (hc : c.WF) (policy : VictimPolicy)
    (hpol : OffersResident c policy) (junk : Nat → BYTE) (R : List Int) :
    ∀ (k : Nat) (caller : pcb_t) (lst : List Int) (ret : Int) (caller1 : pcb_t)
      (lst1 : List Int), ¬ret < 0 →
      List.Perm (caller.mram.free_fp_list ++ (lst ++ residentFrames c caller.mm.pgd)) R →
      alloc_loop c policy junk k caller lst = some (ret, caller1, lst1) →
      List.Perm (caller1.mram.free_fp_list ++ (lst1 ++ residentFrames c caller1.mm.pgd)) R ∧
      caller1.mram.maxsz = caller.mram.maxsz ∧ lst1.length = lst.length + k ∧
      (∀ p, NotResidentAt c caller.mm.pgd p → NotResidentAt c caller1.mm.pgd p) := by
  intro k
  induction k with
  | zero =>
    intro caller lst ret caller1 lst1 _ hperm h
    simp only [alloc_loop, Option.some.injEq, Prod.mk.injEq] at h
    obtain ⟨_, h1, h2⟩ := h
    subst h1 h2
    exact ⟨hperm, rfl, rfl, fun _ hp => hp⟩
  | succ k ih =>
    intro caller lst ret caller1 lst1 hret hperm h
    rw [alloc_loop] at h
    cases hram : caller.mram.free_fp_list with
    | cons a rest =>
      rw [get_freefp_cons caller.mram a rest hram] at h
      simp only at h
      have hperm2 : List.Perm (rest ++ ((a :: lst) ++ residentFrames c caller.mm.pgd)) R := by
        rw [hram] at hperm
        exact (List.perm_middle).trans hperm
      obtain ⟨g1, g2, g3, g4⟩ := ih _ (a :: lst) ret caller1 lst1 hret hperm2 h
      refine ⟨g1, g2, ?_, g4⟩
      rw [g3]
      simp only [List.length_cons]
      omega
    | nil =>
      rw [get_freefp_nil caller.mram hram] at h
      simp only at h
      cases hp : policy caller.mm with
      | none =>
        rw [hp] at h
        simp only at h
        split at h <;> simp only [Option.some.injEq, Prod.mk.injEq] at h <;> omega
      | some vf =>
        obtain ⟨v, fifo1⟩ := vf
        rw [hp] at h
        simp only at h
        cases hswp : caller.active_mswp.free_fp_list with
        | nil =>
          rw [get_freefp_nil caller.active_mswp hswp] at h
          simp only at h
          split at h <;> simp only [Option.some.injEq, Prod.mk.injEq] at h <;> omega
        | cons s rest =>
          rw [get_freefp_cons caller.active_mswp s rest hswp] at h
          simp only at h
          obtain ⟨e, f, hve, hdec⟩ := hpol caller.mm v fifo1 hp
          rw [hve] at h
          simp only at h
          cases hcp : __swap_cp_page c junk caller.mram (i32 (PAGING_FPN c e))
              { caller.active_mswp with free_fp_list := rest } s with
          | none =>
            rw [hcp] at h
            simp at h
          | some res =>
            obtain ⟨r, m2, s2⟩ := res
            have hm2 := swap_cp_page_src c junk _ _ m2 s2 _ _ r hcp
            subst hm2
            rw [hcp] at h
            simp only [pte_set_swap_eq] at h
            obtain ⟨_, _, hfpn⟩ := decode_resident_inv c e f hdec
            have hi32 : i32 (PAGING_FPN c e) = (f : Int) := by
              rw [i32_PAGING_FPN c hc, hfpn]
            rw [hi32] at h
            have hrel := residentFrames_release c caller.mm.pgd v e (swappedEntry c 0 s) f hve
              (residentFrame_of_decode c e f hdec) (residentFrame_swappedEntry c hc 0 s)
            have hperm2 : List.Perm
                (caller.mram.free_fp_list ++
                  (((f : Int) :: lst) ++
                    residentFrames c (caller.mm.pgd.set v (swappedEntry c 0 s)))) R := by
              refine List.Perm.trans ?_ hperm
              apply List.Perm.append_left
              have p1 : List.Perm
                  (((f : Int) :: lst) ++ residentFrames c (caller.mm.pgd.set v (swappedEntry c 0 s)))
                  (lst ++ ((f : Int) :: residentFrames c (caller.mm.pgd.set v (swappedEntry c 0 s)))) :=
                (List.perm_middle).symm
              exact p1.trans (List.Perm.append_left _ hrel)
            obtain ⟨g1, g2, g3, g4⟩ := ih _ ((f : Int) :: lst) ret caller1 lst1 hret hperm2 h
            refine ⟨g1, g2, ?_, ?_⟩
            · rw [g3]
              simp only [List.length_cons]
              omega
            · intro p hp0
              exact g4 p (NotResidentAt_set_swapped c hc caller.mm.pgd p v 0 s hp0)

theorem NotResidentAt_set_other (c : PagingCfg) (pgd : List Nat) (p j x : Nat) (hne : j ≠ p)
    (h : NotResidentAt c pgd p) : NotResidentAt c (pgd.set j x) p := by
  unfold NotResidentAt at h ⊢
  rw [List.getElem?_set, if_neg hne]
  exact h

/-- The mapping loop binds exactly the frames of the list it is given, when the pages it
maps are not resident and the frame numbers fit the frame-number field. -/
theorem vmap_loop_binds (c : PagingCfg) (hc : c.WF) (pgn : Nat) :
    ∀ (k pgit : Nat) (mm : mm_struct) (frames : List Int) (mm1 : mm_struct),
      frames.length = k →
      (∀ f ∈ frames,
        0 ≤ f ∧ f < fieldCard c.PAGING_PTE_FPN_HIBIT c.PAGING_PTE_FPN_LOBIT) →
      (∀ i, i < k → NotResidentAt c mm.pgd (pgn + pgit + i)) →
      vmap_loop c pgn k pgit mm frames = some mm1 →
      List.Perm (residentFrames c mm1.pgd) (frames ++ residentFrames c mm.pgd) := by
  intro k
  induction k with
  | zero =>
    intro pgit mm frames mm1 hlen _ _ h
    simp only [vmap_loop, Option.some.injEq] at h
    have : frames = [] := List.length_eq_zero.mp hlen
    rw [← h, this]
    exact List.Perm.refl _
  | succ k ih =>
    intro pgit mm frames mm1 hlen hfit hfresh h
    cases frames with
    | nil => simp at hlen
    | cons fpn rest =>
      rw [vmap_loop] at h
      simp only at h
      cases hpte : mm.pgd[pgn + pgit]? with
      | none => rw [hpte] at h; simp at h
      | some pte =>
        rw [hpte] at h
        simp only [pte_set_fpn_eq c hc, enlist_pgn_node] at h
        have hf := hfit fpn (List.mem_cons_self _ _)
        have hnr : residentFrame c pte = none := by
          have h0 := hfresh 0 (by omega)
          unfold NotResidentAt at h0
          rw [Nat.add_zero, hpte] at h0
          exact h0
        have hbind := residentFrames_bind c mm.pgd (pgn + pgit) pte (residentEntry c fpn) fpn
          hpte hnr (residentFrame_residentEntry c hc fpn hf.1 hf.2)
        have hrest := ih (pgit + 1) _ rest mm1 (by simpa using hlen)
          (fun f hfm => hfit f (List.mem_cons_of_mem _ hfm))
          (fun i hi => by
            have h1 := hfresh (i + 1) (by omega)
            have e1 : pgn + (pgit + 1) + i = pgn + pgit + (i + 1) := by omega
            rw [e1]
            exact NotResidentAt_set_other c mm.pgd _ (pgn + pgit) _ (by omega) h1)
          h
        refine hrest.trans ?_
        exact (List.Perm.append_left rest hbind).trans List.perm_middle

/-- One successful `vm_map_ram` call that maps non-resident pages keeps frame
conservation, and keeps the size of the RAM device. -/
theorem vm_map_ram_conserves (c : PagingCfg) (hc : c.WF) (policy : VictimPolicy)
    (hpol : OffersResident c policy) (junk : Nat → BYTE) (caller caller1 : pcb_t)
    (astart aend mapstart n : Int) (rg rg1 : vm_rg_struct)
    (hinv : FrameConservation c caller)
    (hfit : numFrames c caller.mram ≤ fieldCard c.PAGING_PTE_FPN_HIBIT c.PAGING_PTE_FPN_LOBIT)
    (hfresh : TargetsNotResident c caller.mm mapstart n)
    (hrun : vm_map_ram c policy junk caller astart aend mapstart n rg = some (0, rg1, caller1)) :
    FrameConservation c caller1 ∧ caller1.mram.maxsz = caller.mram.maxsz := by
  unfold vm_map_ram alloc_pages_range at hrun
  cases hal : alloc_loop c policy junk n.toNat caller [] with
  | none => rw [hal] at hrun; simp at hrun
  | some res =>
    obtain ⟨ret, c1, lst⟩ := res
    rw [hal] at hrun
    simp only at hrun
    by_cases hret : ret < 0
    · rw [if_pos hret] at hrun
      simp at hrun
    · rw [if_neg hret] at hrun
      cases hvm : vmap_loop c (PAGING_PGN c mapstart) n.toNat 0 c1.mm lst with
      | none => simp [vmap_page_range, hvm] at hrun
      | some mm1 =>
        simp only [vmap_page_range, hvm, Option.some.injEq, Prod.mk.injEq, true_and] at hrun
        obtain ⟨_, hc1⟩ := hrun
        subst hc1
        unfold FrameConservation at hinv
        obtain ⟨g1, g2, g3, g4⟩ :=
          alloc_loop_conserves c hc policy hpol junk _ n.toNat caller [] ret c1 lst hret
            (by simpa using hinv) hal
        have hmem : ∀ f ∈ lst,
            0 ≤ f ∧ f < fieldCard c.PAGING_PTE_FPN_HIBIT c.PAGING_PTE_FPN_LOBIT := by
          intro f hf
          have h1 : f ∈ c1.mram.free_fp_list ++ (lst ++ residentFrames c c1.mm.pgd) :=
            List.mem_append_right _ (List.mem_append_left _ hf)
          have h2 := (g1.mem_iff).mp h1
          simp only [List.mem_map, List.mem_range] at h2
          obtain ⟨a, ha, hfa⟩ := h2
          rw [← hfa]
          constructor
          · exact Int.ofNat_nonneg a
          · have : a < fieldCard c.PAGING_PTE_FPN_HIBIT c.PAGING_PTE_FPN_LOBIT := by omega
            exact Int.ofNat_lt.mpr this
        have hb := vmap_loop_binds c hc (PAGING_PGN c mapstart) n.toNat 0 c1.mm lst mm1
          (by simpa using g3) hmem
          (fun i hi => by
            have := g4 (PAGING_PGN c mapstart + i) (hfresh i hi)
            simpa using this)
          hvm
        refine ⟨?_, g2⟩
        unfold FrameConservation numFrames
        simp only [g2]
        exact (List.Perm.append_left _ hb).trans g1

/-- A freshly initialised device of at least two frames, together with a page directory
without resident entries, satisfies frame conservation. -/
theorem init_memphy_conserves (c : PagingCfg) (mp0 mswp : memphy_struct)
    (max_size randomflg : Int) (raw : List BYTE) (junk : List Int) (mm : mm_struct)
    (hP : 0 < c.PAGING_PAGESZ) (hdiv : max_size.tmod c.PAGING_PAGESZ = 0)
    (hn : 2 ≤ max_size.tdiv c.PAGING_PAGESZ) (hnone : residentFrames c mm.pgd = []) :
    (init_memphy c mp0 max_size randomflg raw junk).1 = 0 ∧
    FrameConservation c
      { mram := (init_memphy c mp0 max_size randomflg raw junk).2, active_mswp := mswp,
        mm := mm } := by
  have hpos : ¬max_size ≤ 0 := by
    intro h
    have h1 : 0 ≤ (-max_size).tdiv (c.PAGING_PAGESZ : Int) :=
      Int.tdiv_nonneg (by omega) (Int.ofNat_nonneg _)
    rw [Int.neg_tdiv] at h1
    omega
  have hfmt := MEMPHY_format_ascending
    { ({ mp0 with storage := raw } : memphy_struct) with maxsz := max_size }
    (c.PAGING_PAGESZ : Int) junk (by exact_mod_cast hP) hdiv hn
  unfold init_memphy
  rw [if_neg hpos]
  simp only [hfmt]
  refine ⟨trivial, ?_⟩
  unfold FrameConservation numFrames
  rw [hnone]
  split <;> simp

theorem oldestResidentPolicy_offersResident (c : PagingCfg) :
    OffersResident c (oldestResidentPolicy c) := by
  intro mm v fifo1 h
  unfold oldestResidentPolicy at h
  cases hf : mm.fifo_pgn.reverse.find?
      (fun p => ((mm.pgd[p]?).bind (residentFrame c)).isSome) with
  | none => rw [hf] at h; simp at h
  | some p =>
    rw [hf] at h
    simp only [Option.some.injEq, Prod.mk.injEq] at h
    have hp := List.find?_some hf
    rw [h.1] at hp
    cases he : mm.pgd[v]? with
    | none => rw [he] at hp; simp at hp
    | some e =>
      rw [he] at hp
      simp only [Option.some_bind] at hp
      unfold residentFrame at hp
      cases hd : decode c e with
      | NotPresent => rw [hd] at hp; simp at hp
      | Swapped t o => rw [hd] at hp; simp at hp
      | Resident f => exact ⟨e, f, rfl, hd⟩

/-- C8 fails as stated.  `demoProc0` is a freshly initialised two-frame RAM device with
no resident page and satisfies frame conservation.  Each of the following successful
operations breaks it: (a) a bare `MEMPHY_get_freefp` takes frame 0 out of the pool and
binds it to nothing; (b) `MEMPHY_put_freefp` of frame 0, which is already free, puts it
in the pool twice; (c) `MEMPHY_format` after two pages were mapped puts the two bound
frames back in the pool; (d) `vm_map_ram` of page 0 twice leaves frame 0 in no pool
and no entry; (e) `vm_map_ram` of two pages under a policy that offers page 0 twice
reads a frame number out of the swapped entry and binds frame 0 to two pages; (f) with
a one-bit frame-number field and three frames, frame 2 is stored as frame 0. -/
theorem frame_conservation_counterexamples :
    FrameConservation demoCfg demoProc0 ∧
    (init_memphy demoCfg ⟨[], 0, 0, 0, []⟩ 8 1 [1, 2, 3, 4, 5, 6, 7, 8] []).2 = demoProc0.mram ∧
    ((MEMPHY_get_freefp demoProc0.mram).1 = 0 ∧
      ¬FrameConservation demoCfg
        { demoProc0 with mram := (MEMPHY_get_freefp demoProc0.mram).2.2 }) ∧
    ((MEMPHY_put_freefp demoProc0.mram 0).1 = 0 ∧
      ¬FrameConservation demoCfg
        { demoProc0 with mram := (MEMPHY_put_freefp demoProc0.mram 0).2 }) ∧
    (vm_map_ram demoCfg noVictim (fun _ => 0) demoProc0 0 8 0 2 ⟨0, 0⟩ =
        some (0, ⟨0, 8⟩, demoProc1) ∧
      (MEMPHY_format demoProc1.mram 4 []).1 = 0 ∧
      ¬FrameConservation demoCfg
        { demoProc1 with mram := (MEMPHY_format demoProc1.mram 4 []).2 }) ∧
    (vm_map_ram demoCfg noVictim (fun _ => 0) demoProc0 0 8 0 1 ⟨0, 0⟩ =
        some (0, ⟨0, 4⟩,
          { demoProc0 with
            mram := ⟨[1, 2, 3, 4, 5, 6, 7, 8], 8, 1, 0, [1]⟩
            mm := ⟨[2147483648, 0, 0, 0], [0]⟩ }) ∧
      vm_map_ram demoCfg noVictim (fun _ => 0)
          { demoProc0 with
            mram := ⟨[1, 2, 3, 4, 5, 6, 7, 8], 8, 1, 0, [1]⟩
            mm := ⟨[2147483648, 0, 0, 0], [0]⟩ } 0 8 0 1 ⟨0, 0⟩ =
        some (0, ⟨0, 4⟩,
          { demoProc0 with
            mram := ⟨[1, 2, 3, 4, 5, 6, 7, 8], 8, 1, 0, []⟩
            mm := ⟨[2147483649, 0, 0, 0], [0, 0]⟩ }) ∧
      ¬FrameConservation demoCfg
        { demoProc0 with
          mram := ⟨[1, 2, 3, 4, 5, 6, 7, 8], 8, 1, 0, []⟩
          mm := ⟨[2147483649, 0, 0, 0], [0, 0]⟩ }) ∧
    (FrameConservation demoCfg demoProcTwoSwap ∧
      TargetsNotResident demoCfg demoProcTwoSwap.mm 8 2 ∧
      vm_map_ram demoCfg alwaysPageZero (fun _ => 0) demoProcTwoSwap 0 16 8 2 ⟨0, 0⟩ =
        some (0, ⟨8, 16⟩,
          { mram := ⟨[1, 2, 3, 4, 5, 6, 7, 8], 8, 1, 0, []⟩
            active_mswp := ⟨[5, 6, 7, 8, 1, 2, 3, 4], 8, 1, 0, []⟩
            mm := ⟨[3221225504, 2147483648, 2147483648, 2147483649], [3, 2, 1, 0]⟩ }) ∧
      ¬FrameConservation demoCfg
        { mram := ⟨[1, 2, 3, 4, 5, 6, 7, 8], 8, 1, 0, []⟩
          active_mswp := ⟨[5, 6, 7, 8, 1, 2, 3, 4], 8, 1, 0, []⟩
          mm := ⟨[3221225504, 2147483648, 2147483648, 2147483649], [3, 2, 1, 0]⟩ }) ∧
    (FrameConservation tinyCfg demoProcThree ∧
      TargetsNotResident tinyCfg demoProcThree.mm 0 3 ∧
      vm_map_ram tinyCfg noVictim (fun _ => 0) demoProcThree 0 12 0 3 ⟨0, 0⟩ =
        some (0, ⟨0, 12⟩,
          { demoProcThree with
            mram := ⟨[1, 2, 3, 4, 5, 6, 7, 8, 9, 10, 11, 12], 12, 1, 0, []⟩
            mm := ⟨[2147483648, 2147483649, 2147483648, 0], [2, 1, 0]⟩ }) ∧
      ¬FrameConservation tinyCfg
        { demoProcThree with
          mram := ⟨[1, 2, 3, 4, 5, 6, 7, 8, 9, 10, 11, 12], 12, 1, 0, []⟩
          mm := ⟨[2147483648, 2147483649, 2147483648, 0], [2, 1, 0]⟩ }) := by
  decide

/-- C8, amended.  From a state in which the RAM free pool and the frames of the resident
entries are disjoint and together hold every frame index below `maxsz / frame_size`
exactly once, the same holds after any sequence of successful `vm_map_ram` calls, with
or without eviction, provided each call maps pages that are not resident when it is
made, the victim policy only offers resident pages, and every RAM frame number fits the
frame-number field of an entry.  The size of the RAM device is unchanged as well. -/
theorem frame_conservation_of_fresh_maps (c : PagingCfg) (hc : c.WF) (policy : VictimPolicy)
    (hpol : OffersResident c policy) (junk : Nat → BYTE) (p r : pcb_t)
    (hinv : FrameConservation c p)
    (hfit : numFrames c p.mram ≤ fieldCard c.PAGING_PTE_FPN_HIBIT c.PAGING_PTE_FPN_LOBIT)
    (hrun : MapRun c policy junk p r) :
    FrameConservation c r ∧ r.mram.maxsz = p.mram.maxsz := by
  induction hrun with
  | done => exact ⟨hinv, rfl⟩
  | step q r astart aend mapstart n rg rg1 _ hfresh hcall ih =>
    obtain ⟨hq, hsz⟩ := ih
    have hfitq :
        numFrames c q.mram ≤ fieldCard c.PAGING_PTE_FPN_HIBIT c.PAGING_PTE_FPN_LOBIT := by
      unfold numFrames at hfit ⊢
      rw [hsz]
      exact hfit
    obtain ⟨h1, h2⟩ := vm_map_ram_conserves c hc policy hpol junk q r astart aend mapstart n
      rg rg1 hq hfitq hfresh hcall
    exact ⟨h1, h2.trans hsz⟩

/-- Instance of amended C8: from the fresh process `demoProc0`, mapping pages 0 and 1 and
then page 2 (which evicts page 0) under the policy that offers the oldest resident
page. -/
theorem frame_conservation_of_fresh_maps_witness :
    FrameConservation demoCfg demoProc0 ∧
    vm_map_ram demoCfg (oldestResidentPolicy demoCfg) (fun _ => 0) demoProc0 0 8 0 2 ⟨0, 0⟩ =
      some (0, ⟨0, 8⟩, demoProc1) ∧
    vm_map_ram demoCfg (oldestResidentPolicy demoCfg) (fun _ => 0) demoProc1 0 16 8 1 ⟨0, 0⟩ =
      some (0, ⟨8, 12⟩, demoProc2) ∧
    FrameConservation demoCfg demoProc2 :=
  ⟨by decide, by decide, by decide,
    (frame_conservation_of_fresh_maps demoCfg demoCfg_WF (oldestResidentPolicy demoCfg)
      (oldestResidentPolicy_offersResident demoCfg) (fun _ => 0) demoProc0 demoProc2
      (by decide) (by decide)
      (MapRun.step demoProc0 demoProc1 demoProc2 0 16 8 1 ⟨0, 0⟩ ⟨8, 12⟩
        (MapRun.step demoProc0 demoProc0 demoProc1 0 8 0 2 ⟨0, 0⟩ ⟨0, 8⟩
          (MapRun.done demoProc0) (by decide) (by decide))
        (by decide) (by decide))).1⟩

/-! ## Device initialisation and the entry encoders on frame 0 -/

/-- C11, what the code does.  `init_memphy` returns -1 exactly when the capacity is not
positive.  For a positive capacity that is not a multiple of the frame size it returns
0: `MEMPHY_format` rejects the capacity with -1, `init_memphy` drops that status, and the
free pool is left as it was found. -/
theorem init_memphy_ignores_format_failure (c : PagingCfg) (mp : memphy_struct)
    (max_size randomflg : Int) (raw : List BYTE) (junk : List Int) (hpos : 0 < max_size)
    (hnd : max_size.tmod c.PAGING_PAGESZ ≠ 0) :
    (MEMPHY_format { ({ mp with storage := raw } : memphy_struct) with maxsz := max_size }
      c.PAGING_PAGESZ junk).1 = -1 ∧
    (init_memphy c mp max_size randomflg raw junk).1 = 0 ∧
    (init_memphy c mp max_size randomflg raw junk).2.free_fp_list = mp.free_fp_list ∧
    (init_memphy c mp max_size randomflg raw junk).2.maxsz = max_size := by
  have hfmt : MEMPHY_format
      { ({ mp with storage := raw } : memphy_struct) with maxsz := max_size }
      c.PAGING_PAGESZ junk =
      (-1, { ({ mp with storage := raw } : memphy_struct) with maxsz := max_size }) := by
    unfold MEMPHY_format
    rw [if_pos (Or.inr hnd)]
  have hp : ¬max_size ≤ 0 := by omega
  refine ⟨by rw [hfmt], ?_, ?_, ?_⟩
  · unfold init_memphy
    rw [if_neg hp]
  · unfold init_memphy
    rw [if_neg hp]
    simp only [hfmt]
    split <;> rfl
  · unfold init_memphy
    rw [if_neg hp]
    simp only [hfmt]
    split <;> rfl

/-- Instance of C11: a capacity of 10 bytes with frames of 4 bytes.  `init_memphy`
returns 0 and the pool still holds the entry 9 it held before the call. -/
theorem init_memphy_ignores_format_failure_witness :
    (10 : Int).tmod demoCfg.PAGING_PAGESZ ≠ 0 ∧
    init_memphy demoCfg ⟨[], 0, 0, 0, [9]⟩ 10 1 [0, 0, 0, 0, 0, 0, 0, 0, 0, 0] [] =
      (0, ⟨[0, 0, 0, 0, 0, 0, 0, 0, 0, 0], 10, 1, 0, [9]⟩) ∧
    (init_memphy demoCfg ⟨[], 0, 0, 0, [9]⟩ 10 1 [0, 0, 0, 0, 0, 0, 0, 0, 0, 0] []).1 = 0 ∧
    init_memphy demoCfg ⟨[], 0, 0, 0, [9]⟩ 0 1 [] [] = (-1, ⟨[], 0, 0, 0, [9]⟩) :=
  ⟨by decide, by decide,
    (init_memphy_ignores_format_failure demoCfg ⟨[], 0, 0, 0, [9]⟩ 10 1
      [0, 0, 0, 0, 0, 0, 0, 0, 0, 0] [] (by decide) (by decide)).2.1,
    by decide⟩

/-- The status of `init_memphy` depends on the sign of the capacity only. -/
theorem init_memphy_status (c : PagingCfg) (mp : memphy_struct) (max_size randomflg : Int)
    (raw : List BYTE) (junk : List Int) :
    (init_memphy c mp max_size randomflg raw junk).1 = if max_size ≤ 0 then -1 else 0 := by
  unfold init_memphy
  split <;> rfl

/-- C12. The validating encoder rejects the sentinel frame: `init_pte` with `pre ≠ 0`,
`fpn = 0`, `swp = 0` returns -1 and leaves the entry unchanged.  The force-set encoder
does not validate: `pte_set_fpn` with frame 0 returns 0 and leaves an entry with the
present bit set, the swapped bit clear and frame number 0. -/
theorem zero_frame_rejected_by_init_pte_only (c : PagingCfg) (hc : c.WF) (pte : Nat)
    (pre drt swptyp swpoff : Int) (hpre : pre ≠ 0) :
    init_pte c pte pre 0 drt 0 swptyp swpoff = (-1, pte) ∧
    (pte_set_fpn c pte 0).1 = 0 ∧
    pte_present c (pte_set_fpn c pte 0).2 = true ∧
    pte_swapped c (pte_set_fpn c pte 0).2 = false ∧
    PAGING_FPN c (pte_set_fpn c pte 0).2 = 0 ∧
    decode c (pte_set_fpn c pte 0).2 = PageTableEntry.Resident 0 := by
  have hi : init_pte c pte pre 0 drt 0 swptyp swpoff = (-1, pte) := by
    unfold init_pte
    simp [hpre]
  rw [pte_set_fpn_eq c hc]
  exact ⟨hi, rfl, residentEntry_present c hc 0, residentEntry_swapped c hc 0,
    residentEntry_fpn c hc 0 (le_refl 0) (fieldCard_pos _ _),
    decode_residentEntry c hc 0 (le_refl 0) (fieldCard_pos _ _)⟩

/-- Instance of C12 on the demonstration layout, over a prior entry with every bit set. -/
theorem zero_frame_rejected_by_init_pte_only_witness :
    demoCfg.WF ∧
    init_pte demoCfg 4294967295 1 0 0 0 0 0 = (-1, 4294967295) ∧
    pte_set_fpn demoCfg 4294967295 0 = (0, 2147483648) ∧
    decode demoCfg (pte_set_fpn demoCfg 4294967295 0).2 = PageTableEntry.Resident 0 :=
  have h := zero_frame_rejected_by_init_pte_only demoCfg demoCfg_WF 4294967295 1 0 0 0
    (by decide)
  ⟨demoCfg_WF, h.1, by decide, h.2.2.2.2.2⟩

/-! ## The free-frame pool: put, cursor, transfers -/

/-- C13. Most-recently-freed-first reuse: a frame index `f` that `MEMPHY_put_freefp`
accepts is placed at the front of the free pool, the previous pool following in
unchanged order; an immediately following `MEMPHY_get_freefp` returns `f` and restores
the device to exactly what it was before the put. -/
theorem put_freefp_then_get_restores (mp : memphy_struct) (f : Int)
    (hacc : (MEMPHY_put_freefp mp f).1 = 0) :
    MEMPHY_put_freefp mp f = (0, { mp with free_fp_list := f :: mp.free_fp_list }) ∧
    MEMPHY_get_freefp (MEMPHY_put_freefp mp f).2 = (0, some f, mp) := by
  by_cases hg : f < 0 ∨ f ≥ mp.maxsz
  · unfold MEMPHY_put_freefp at hacc
    rw [if_pos hg] at hacc
    simp at hacc
  · have hput : MEMPHY_put_freefp mp f = (0, { mp with free_fp_list := f :: mp.free_fp_list }) := by
      unfold MEMPHY_put_freefp
      rw [if_neg hg]
    refine ⟨hput, ?_⟩
    rw [hput]
    rfl

/-- Instance of C13: frame 1 is put back on a two-frame device whose pool holds frame 0. -/
theorem put_freefp_then_get_restores_witness :
    (MEMPHY_put_freefp ⟨[1, 2, 3, 4, 5, 6, 7, 8], 8, 1, 0, [0]⟩ 1).1 = 0 ∧
    MEMPHY_put_freefp ⟨[1, 2, 3, 4, 5, 6, 7, 8], 8, 1, 0, [0]⟩ 1 =
      (0, ⟨[1, 2, 3, 4, 5, 6, 7, 8], 8, 1, 0, [1, 0]⟩) ∧
    MEMPHY_get_freefp (MEMPHY_put_freefp ⟨[1, 2, 3, 4, 5, 6, 7, 8], 8, 1, 0, [0]⟩ 1).2 =
      (0, some 1, ⟨[1, 2, 3, 4, 5, 6, 7, 8], 8, 1, 0, [0]⟩) :=
  have h := put_freefp_then_get_restores ⟨[1, 2, 3, 4, 5, 6, 7, 8], 8, 1, 0, [0]⟩ 1 (by decide)
  ⟨by decide, h.1, h.2⟩

/-- The reset-then-advance loop of `MEMPHY_mv_csr`: started with the cursor equal to the
step count, it stops with the cursor at `offset`. -/
theorem mv_csr_loop_reaches (maxsz offset : Int) (hlt : offset < maxsz) :
    ∀ (fuel : Nat) (numstep : Int), 0 ≤ numstep → numstep ≤ offset →
      offset - numstep ≤ fuel → mv_csr_loop maxsz offset fuel numstep numstep = offset := by
  intro fuel
  induction fuel with
  | zero =>
    intro numstep _ h2 h3
    simp only [mv_csr_loop]
    have : offset - numstep ≤ 0 := by exact_mod_cast h3
    omega
  | succ k ih =>
    intro numstep h1 h2 h3
    rw [mv_csr_loop]
    by_cases hc : numstep < offset ∧ numstep < maxsz
    · rw [if_pos hc, Int.tmod_eq_of_lt (by omega) (by omega)]
      apply ih (numstep + 1) (by omega) (by omega)
      have : offset - numstep ≤ (k : Int) + 1 := by exact_mod_cast h3
      omega
    · rw [if_neg hc]
      omega

/-- C14. `MEMPHY_mv_csr`: for `0 ≤ offset < maxsz` the call returns 0 and leaves the
cursor at `offset` whatever it was before, with storage, size, mode and free pool
unchanged; for `offset < 0` or `offset ≥ maxsz` it returns -1 and leaves the device
unchanged. -/
theorem mv_csr_sets_cursor (mp : memphy_struct) (offset : Int) :
    (0 ≤ offset ∧ offset < mp.maxsz →
      MEMPHY_mv_csr mp offset = (0, { mp with cursor := offset })) ∧
    (offset < 0 ∨ offset ≥ mp.maxsz → MEMPHY_mv_csr mp offset = (-1, mp)) := by
  constructor
  · intro h
    unfold MEMPHY_mv_csr
    have hg : ¬(offset < 0 ∨ offset ≥ mp.maxsz) := by omega
    rw [if_neg hg, mv_csr_loop_reaches mp.maxsz offset h.2 offset.toNat 0 (le_refl 0) h.1
      (by omega)]
  · intro h
    unfold MEMPHY_mv_csr
    rw [if_pos h]

/-- Instance of C14: on an 8-byte device whose cursor is at 7, moving to offset 5 leaves
the cursor at 5, and moving to offset 8 or -1 is refused. -/
theorem mv_csr_sets_cursor_witness :
    MEMPHY_mv_csr ⟨[1, 2, 3, 4, 5, 6, 7, 8], 8, 0, 7, [0, 1]⟩ 5 =
      (0, ⟨[1, 2, 3, 4, 5, 6, 7, 8], 8, 0, 5, [0, 1]⟩) ∧
    MEMPHY_mv_csr ⟨[1, 2, 3, 4, 5, 6, 7, 8], 8, 0, 7, [0, 1]⟩ 8 =
      (-1, ⟨[1, 2, 3, 4, 5, 6, 7, 8], 8, 0, 7, [0, 1]⟩) ∧
    MEMPHY_mv_csr ⟨[1, 2, 3, 4, 5, 6, 7, 8], 8, 0, 7, [0, 1]⟩ (-1) =
      (-1, ⟨[1, 2, 3, 4, 5, 6, 7, 8], 8, 0, 7, [0, 1]⟩) :=
  ⟨(mv_csr_sets_cursor ⟨[1, 2, 3, 4, 5, 6, 7, 8], 8, 0, 7, [0, 1]⟩ 5).1 (by decide),
    (mv_csr_sets_cursor ⟨[1, 2, 3, 4, 5, 6, 7, 8], 8, 0, 7, [0, 1]⟩ 8).2 (by decide),
    (mv_csr_sets_cursor ⟨[1, 2, 3, 4, 5, 6, 7, 8], 8, 0, 7, [0, 1]⟩ (-1)).2 (by decide)⟩

theorem MEMPHY_read_out_of_range (mp : memphy_struct) (addr : Int)
    (h : addr < 0 ∨ addr ≥ mp.maxsz) : MEMPHY_read mp addr = some (-1, none, mp) := by
  unfold MEMPHY_read
  rw [if_pos (Or.inr h)]

/-- C15. Random-mode access is bounds-checked indexed access.  On a random-mode device
whose storage holds `maxsz` bytes, for an address `0 ≤ a < maxsz` and a byte `b`:
`MEMPHY_write` returns 0; a following `MEMPHY_read` at `a` returns 0 with value `b`;
`MEMPHY_read` at any other address in range returns the byte it returned before the
write; and `MEMPHY_read` at an address below 0 or at least `maxsz` returns -1 and leaves
the device unchanged, before and after the write. -/
theorem random_write_then_read (mp : memphy_struct) (a : Int) (b : BYTE)
    (hr : mp.rdmflg ≠ 0) (hl : (mp.storage.length : Int) = mp.maxsz) (ha0 : 0 ≤ a)
    (ha : a < mp.maxsz) :
    MEMPHY_write mp a b = some (0, { mp with storage := mp.storage.set a.toNat b }) ∧
    MEMPHY_read { mp with storage := mp.storage.set a.toNat b } a =
      some (0, some b, { mp with storage := mp.storage.set a.toNat b }) ∧
    (∀ a2 : Int, 0 ≤ a2 → a2 < mp.maxsz → a2 ≠ a →
      ∃ old : BYTE, MEMPHY_read mp a2 = some (0, some old, mp) ∧
        MEMPHY_read { mp with storage := mp.storage.set a.toNat b } a2 =
          some (0, some old, { mp with storage := mp.storage.set a.toNat b })) ∧
    (∀ a3 : Int, a3 < 0 ∨ a3 ≥ mp.maxsz →
      MEMPHY_read mp a3 = some (-1, none, mp) ∧
      MEMPHY_read { mp with storage := mp.storage.set a.toNat b } a3 =
        some (-1, none, { mp with storage := mp.storage.set a.toNat b })) := by
  have hcast : ∀ x : Int, 0 ≤ x → ((x.toNat : Nat) : Int) = x := fun x hx =>
    Int.toNat_of_nonneg hx
  have han : a.toNat < mp.storage.length := by omega
  refine ⟨?_, ?_, ?_, ?_⟩
  · have h := MEMPHY_write_random mp a.toNat b hr han
    rw [hcast a ha0] at h
    exact h
  · have h := MEMPHY_read_random { mp with storage := mp.storage.set a.toNat b } a.toNat b hr
      (by rw [hcast a ha0]; exact ha)
      (by simp [List.getElem?_set, han])
    rw [hcast a ha0] at h
    exact h
  · intro a2 h0 h1 hne
    have h2n : a2.toNat < mp.storage.length := by omega
    have hne2 : a.toNat ≠ a2.toNat := by omega
    refine ⟨mp.storage[a2.toNat], ?_, ?_⟩
    · have h := MEMPHY_read_random mp a2.toNat mp.storage[a2.toNat] hr
        (by rw [hcast a2 h0]; exact h1) (by simp [h2n])
      rw [hcast a2 h0] at h
      exact h
    · have h := MEMPHY_read_random { mp with storage := mp.storage.set a.toNat b } a2.toNat
        mp.storage[a2.toNat] hr (by rw [hcast a2 h0]; exact h1)
        (by simp [List.getElem?_set, hne2, h2n])
      rw [hcast a2 h0] at h
      exact h
  · intro a3 h3
    exact ⟨MEMPHY_read_out_of_range mp a3 h3,
      MEMPHY_read_out_of_range { mp with storage := mp.storage.set a.toNat b } a3 h3⟩

/-- Instance of C15: the byte 171 is written at address 5 of `demoSrc`. -/
theorem random_write_then_read_witness :
    demoSrc.rdmflg ≠ 0 ∧ (5 : Int) < demoSrc.maxsz ∧
    MEMPHY_write demoSrc 5 171 = some (0, ⟨[1, 2, 3, 4, 5, 171, 7, 8], 8, 1, 0, []⟩) ∧
    MEMPHY_read ⟨[1, 2, 3, 4, 5, 171, 7, 8], 8, 1, 0, []⟩ 5 =
      some (0, some 171, ⟨[1, 2, 3, 4, 5, 171, 7, 8], 8, 1, 0, []⟩) ∧
    MEMPHY_read ⟨[1, 2, 3, 4, 5, 171, 7, 8], 8, 1, 0, []⟩ 6 =
      some (0, some 7, ⟨[1, 2, 3, 4, 5, 171, 7, 8], 8, 1, 0, []⟩) ∧
    MEMPHY_read demoSrc 8 = some (-1, none, demoSrc) :=
  have h := random_write_then_read demoSrc 5 171 (by decide) (by decide) (by decide)
    (by decide)
  ⟨by decide, by decide, h.1, h.2.1, by decide, (h.2.2.2 8 (by decide)).1⟩

/-- C19. Sequential-mode transfers unconditionally fail: on a device with `rdmflg = 0`,
for every address and every byte, `MEMPHY_read`, `MEMPHY_seq_read`, `MEMPHY_write` and
`MEMPHY_seq_write` all return -1, store nothing, and leave the device (storage and
cursor included) unchanged. -/
theorem sequential_transfers_fail (mp : memphy_struct) (addr : Int) (value : BYTE)
    (hseq : mp.rdmflg = 0) :
    MEMPHY_read mp addr = some (-1, none, mp) ∧
    MEMPHY_seq_read mp addr = some (-1, none, mp) ∧
    MEMPHY_write mp addr value = some (-1, mp) ∧
    MEMPHY_seq_write mp addr value = some (-1, mp) := by
  have hsw : MEMPHY_seq_write mp addr value = some (-1, mp) := by
    unfold MEMPHY_seq_write
    rw [if_pos (Or.inl hseq)]
  refine ⟨?_, ?_, ?_, hsw⟩
  · unfold MEMPHY_read
    rw [if_pos (Or.inl hseq)]
  · unfold MEMPHY_seq_read
    rw [if_pos (Or.inl hseq)]
  · unfold MEMPHY_write
    rw [if_neg (by simp [hseq]), hsw]

/-- Instance of C19: an 8-byte sequential device, address 3, byte 171. -/
theorem sequential_transfers_fail_witness :
    MEMPHY_read ⟨[1, 2, 3, 4, 5, 6, 7, 8], 8, 0, 2, [0, 1]⟩ 3 =
      some (-1, none, ⟨[1, 2, 3, 4, 5, 6, 7, 8], 8, 0, 2, [0, 1]⟩) ∧
    MEMPHY_seq_read ⟨[1, 2, 3, 4, 5, 6, 7, 8], 8, 0, 2, [0, 1]⟩ 3 =
      some (-1, none, ⟨[1, 2, 3, 4, 5, 6, 7, 8], 8, 0, 2, [0, 1]⟩) ∧
    MEMPHY_write ⟨[1, 2, 3, 4, 5, 6, 7, 8], 8, 0, 2, [0, 1]⟩ 3 171 =
      some (-1, ⟨[1, 2, 3, 4, 5, 6, 7, 8], 8, 0, 2, [0, 1]⟩) ∧
    MEMPHY_seq_write ⟨[1, 2, 3, 4, 5, 6, 7, 8], 8, 0, 2, [0, 1]⟩ 3 171 =
      some (-1, ⟨[1, 2, 3, 4, 5, 6, 7, 8], 8, 0, 2, [0, 1]⟩) :=
  sequential_transfers_fail ⟨[1, 2, 3, 4, 5, 6, 7, 8], 8, 0, 2, [0, 1]⟩ 3 171 rfl

/-- C20, what the code does.  `MEMPHY_put_freefp` compares the frame index with the size
of the device in bytes: an index that is at least `maxsz / frame_size` but below `maxsz`
is accepted, the call returns 0, and the index is in the free pool afterwards. -/
theorem put_freefp_accepts_index_beyond_frames (c : PagingCfg) (mp : memphy_struct)
    (fpn : Int) (hbig : (numFrames c mp : Int) ≤ fpn) (hlt : fpn < mp.maxsz) :
    MEMPHY_put_freefp mp fpn = (0, { mp with free_fp_list := fpn :: mp.free_fp_list }) ∧
    fpn ∈ (MEMPHY_put_freefp mp fpn).2.free_fp_list ∧
    ¬(0 ≤ fpn ∧ fpn < (numFrames c mp : Int)) := by
  have h0 : 0 ≤ fpn := le_trans (Int.ofNat_nonneg _) hbig
  have hput : MEMPHY_put_freefp mp fpn =
      (0, { mp with free_fp_list := fpn :: mp.free_fp_list }) := by
    unfold MEMPHY_put_freefp
    rw [if_neg (by omega)]
  refine ⟨hput, ?_, by omega⟩
  rw [hput]
  exact List.mem_cons_self _ _

/-- Instance of C20: a freshly formatted device of 8 bytes with frames of 4 bytes has the
frames 0 and 1; `MEMPHY_put_freefp` accepts the index 5. -/
theorem put_freefp_accepts_index_beyond_frames_witness :
    numFrames demoCfg demoProc0.mram = 2 ∧
    (MEMPHY_format demoProc1.mram 4 []).2 = demoProc0.mram ∧
    MEMPHY_put_freefp demoProc0.mram 5 =
      (0, ⟨[1, 2, 3, 4, 5, 6, 7, 8], 8, 1, 0, [5, 0, 1]⟩) ∧
    (5 : Int) ∈ (MEMPHY_put_freefp demoProc0.mram 5).2.free_fp_list :=
  have h := put_freefp_accepts_index_beyond_frames demoCfg demoProc0.mram 5 (by decide)
    (by decide)
  ⟨by decide, by decide, h.1, h.2.1⟩

/-- The range property holds after `MEMPHY_format` on a device of at least two frames. -/
theorem format_pool_in_range (c : PagingCfg) (mp : memphy_struct) (junk : List Int)
    (hp : 0 < c.PAGING_PAGESZ) (hdiv : mp.maxsz.tmod c.PAGING_PAGESZ = 0)
    (hn : 2 ≤ mp.maxsz.tdiv c.PAGING_PAGESZ) :
    PoolInRange c (MEMPHY_format mp c.PAGING_PAGESZ junk).2 := by
  rw [MEMPHY_format_ascending mp c.PAGING_PAGESZ junk (by exact_mod_cast hp) hdiv hn]
  intro f hf
  simp only [List.mem_map, List.mem_range] at hf
  obtain ⟨a, ha, hfa⟩ := hf
  rw [← hfa]
  exact ⟨Int.ofNat_nonneg a, Int.ofNat_lt.mpr ha⟩

/-- The range property is kept by `MEMPHY_get_freefp`. -/
theorem get_freefp_pool_in_range (c : PagingCfg) (mp : memphy_struct)
    (h : PoolInRange c mp) : PoolInRange c (MEMPHY_get_freefp mp).2.2 := by
  unfold MEMPHY_get_freefp
  cases hl : mp.free_fp_list with
  | nil => exact h
  | cons a rest =>
    intro f hf
    have hm : f ∈ mp.free_fp_list := by
      rw [hl]
      exact List.mem_cons_of_mem _ hf
    exact h f hm

/-! ## Mapping and the pairing of allocator and mapper -/

/-- The mapping loop, spelled out: when the frame list holds at least `k` frames and the
`k` pages from `pgn + pgit` on are inside the directory, the loop succeeds, pushes those
pages on the history in ascending order (so that the last one is the newest), writes
the entry of `pte_set_fpn` for the `i`-th frame into the `i`-th page, and leaves every
other entry as it was. -/
theorem vmap_loop_spec (c : PagingCfg) (pgn : Nat) :
    ∀ (k pgit : Nat) (mm : mm_struct) (frames : List Int),
      k ≤ frames.length → pgn + pgit + k ≤ mm.pgd.length →
      ∃ mm1 : mm_struct,
        vmap_loop c pgn k pgit mm frames = some mm1 ∧
        mm1.fifo_pgn = (List.range' (pgn + pgit) k).reverse ++ mm.fifo_pgn ∧
        mm1.pgd.length = mm.pgd.length ∧
        (∀ j, j < pgn + pgit ∨ pgn + pgit + k ≤ j → mm1.pgd[j]? = mm.pgd[j]?) ∧
        (∀ i, i < k →
          mm1.pgd[pgn + pgit + i]? = (frames[i]?).map fun f => (pte_set_fpn c 0 f).2) := by
  intro k
  induction k with
  | zero =>
    intro pgit mm frames _ _
    refine ⟨mm, rfl, ?_, rfl, fun _ _ => rfl, ?_⟩
    · simp
    · intro i hi
      omega
  | succ k ih =>
    intro pgit mm frames hlen hin
    cases frames with
    | nil => simp at hlen
    | cons fpn rest =>
      have hlt : pgn + pgit < mm.pgd.length := by omega
      obtain ⟨mm1, hrun, hfifo, hl, hout, hent⟩ :=
        ih (pgit + 1)
          { pgd := mm.pgd.set (pgn + pgit) (pte_set_fpn c mm.pgd[pgn + pgit] fpn).2,
            fifo_pgn := (pgn + pgit) :: mm.fifo_pgn } rest
          (by simpa using hlen) (by simp only [List.length_set]; omega)
      refine ⟨mm1, ?_, ?_, ?_, ?_, ?_⟩
      · rw [vmap_loop]
        simp only [List.getElem?_eq_getElem hlt, enlist_pgn_node]
        exact hrun
      · rw [hfifo, List.range'_succ, List.reverse_cons, List.append_assoc]
        rfl
      · rw [hl]
        simp
      · intro j hj
        rw [hout j (by omega)]
        simp only [List.getElem?_set]
        rw [if_neg (by omega)]
      · intro i hi
        cases i with
        | zero =>
          rw [Nat.add_zero, hout (pgn + pgit) (by omega)]
          simp only [List.getElem?_set, if_true, hlt, List.getElem?_cons_zero, Option.map_some']
          rfl
        | succ i =>
          have e : pgn + pgit + (i + 1) = pgn + (pgit + 1) + i := by omega
          rw [e, hent i (by omega)]
          simp

/-- C16. `vmap_page_range` over `n` frames at base address `addr`, with page
`p = PAGING_PGN addr`: when the frame list holds at least `n` frames and the pages
`p .. p+n-1` are inside the directory, the call returns 0, sets the returned region to
`[addr, addr + n * PAGING_PAGESZ)` with the end computed as the `int` expression of the
source, leaves the history equal to `p+n-1, .., p+1, p` followed by the old history
(whatever the old history and the old entries were, so without deduplication), leaves
every entry outside `[p, p+n)` unchanged, and does not touch the devices.  Whenever the
product and the sum fit in an `int`, the end of the region is the number
`addr + n * PAGING_PAGESZ`. -/
theorem vmap_page_range_records_pages (c : PagingCfg) (caller : pcb_t) (addr n : Int)
    (frames : List Int) (rg : vm_rg_struct) (hlen : n.toNat ≤ frames.length)
    (hin : PAGING_PGN c addr + n.toNat ≤ caller.mm.pgd.length) :
    ∃ caller1 : pcb_t,
      vmap_page_range c caller addr n frames rg =
        some (0, ⟨addr, int32 (addr + int32 (n * (c.PAGING_PAGESZ : Int)))⟩, caller1) ∧
      caller1.mm.fifo_pgn =
        (List.range' (PAGING_PGN c addr) n.toNat).reverse ++ caller.mm.fifo_pgn ∧
      (∀ j, j < PAGING_PGN c addr ∨ PAGING_PGN c addr + n.toNat ≤ j →
        caller1.mm.pgd[j]? = caller.mm.pgd[j]?) ∧
      caller1.mram = caller.mram ∧ caller1.active_mswp = caller.active_mswp ∧
      (-2147483648 ≤ n * (c.PAGING_PAGESZ : Int) ∧ n * (c.PAGING_PAGESZ : Int) < 2147483648 ∧
          -2147483648 ≤ addr + n * (c.PAGING_PAGESZ : Int) ∧
          addr + n * (c.PAGING_PAGESZ : Int) < 2147483648 →
        int32 (addr + int32 (n * (c.PAGING_PAGESZ : Int))) =
          addr + n * (c.PAGING_PAGESZ : Int)) := by
  obtain ⟨mm1, hrun, hfifo, _, hout, _⟩ :=
    vmap_loop_spec c (PAGING_PGN c addr) n.toNat 0 caller.mm frames hlen (by simpa using hin)
  refine ⟨{ caller with mm := mm1 }, ?_, ?_, ?_, rfl, rfl, ?_⟩
  · simp only [vmap_page_range, hrun]
  · simpa using hfifo
  · intro j hj
    exact hout j (by simpa using hj)
  · intro hfit
    rw [int32_of_range _ hfit.1 hfit.2.1, int32_of_range _ hfit.2.2.1 hfit.2.2.2]

/-- Instance of C16: on `demoProc1` (pages 0 and 1 resident, history `1, 0`) two frames
are mapped at address 4, that is, at pages 1 and 2; page 1 enters the history a second
time.  With a page count whose product with the frame size leaves the range of `int`,
the end of the region is the wrapped value. -/
theorem vmap_page_range_records_pages_witness :
    PAGING_PGN demoCfg 4 = 1 ∧
    vmap_page_range demoCfg demoProc1 4 2 [0, 1] ⟨0, 0⟩ =
      some (0, ⟨4, 12⟩,
        { demoProc1 with mm := ⟨[2147483649, 2147483648, 2147483649, 0], [2, 1, 1, 0]⟩ }) ∧
    vmap_page_range demoCfg demoProc1 8 (-1073741824) [] ⟨0, 0⟩ =
      some (0, ⟨8, 8⟩, demoProc1) ∧
    (∃ caller1 : pcb_t,
      vmap_page_range demoCfg demoProc1 4 2 [0, 1] ⟨0, 0⟩ =
        some (0, ⟨4, int32 (4 + int32 (2 * (demoCfg.PAGING_PAGESZ : Int)))⟩, caller1) ∧
      caller1.mm.fifo_pgn =
        (List.range' (PAGING_PGN demoCfg 4) (2 : Int).toNat).reverse ++ demoProc1.mm.fifo_pgn) :=
  have h := vmap_page_range_records_pages demoCfg demoProc1 4 2 [0, 1] ⟨0, 0⟩ (by decide)
    (by decide)
  ⟨by decide, by decide, by decide, h.imp fun _ hc => ⟨hc.1, hc.2.1⟩⟩

/-- C18. Allocation without eviction: when the RAM pool begins with `n` frames `fs`
(`n ≥ 0`), `alloc_pages_range` started with an empty frame list returns 0; the frame
list then holds exactly the `n` frames `fs`, last taken first; the RAM pool is the old
pool without `fs`; page directory, history and swap device are unchanged; and the
outcome is the same under every victim policy, so the policy is not consulted. -/
theorem alloc_from_pool_only (c : PagingCfg) (policy : VictimPolicy) (junk : Nat → BYTE)
    (caller : pcb_t) (n : Int) (fs rest : List Int)
    (hpool : caller.mram.free_fp_list = fs ++ rest) (hlen : (fs.length : Int) = n) :
    alloc_pages_range c policy junk caller n [] =
      some (0, { caller with mram := { caller.mram with free_fp_list := rest } },
        fs.reverse) ∧
    (fs.reverse.length : Int) = n ∧
    (∀ policy2 : VictimPolicy,
      alloc_pages_range c policy2 junk caller n [] =
        alloc_pages_range c policy junk caller n []) := by
  have hk : n.toNat = fs.length + 0 := by omega
  have hany : ∀ pol : VictimPolicy,
      alloc_pages_range c pol junk caller n [] =
        some (0, { caller with mram := { caller.mram with free_fp_list := rest } },
          fs.reverse) := by
    intro pol
    unfold alloc_pages_range
    rw [hk, alloc_loop_take c pol junk fs rest 0 caller [] hpool]
    simp [alloc_loop]
  refine ⟨hany policy, ?_, ?_⟩
  · rw [List.length_reverse]
    exact hlen
  · intro policy2
    rw [hany policy2, hany policy]

/-- Instance of C18: `demoProc0` (RAM pool `0, 1`) asks for two pages under the FIFO
policy. -/
theorem alloc_from_pool_only_witness :
    demoProc0.mram.free_fp_list = [0, 1] ++ [] ∧
    alloc_pages_range demoCfg fifoPolicy (fun _ => 0) demoProc0 2 [] =
      some (0, { demoProc0 with mram := { demoProc0.mram with free_fp_list := [] } },
        [1, 0]) ∧
    alloc_pages_range demoCfg fifoPolicy (fun _ => 0) demoProc0 0 [] =
      some (0, demoProc0, []) :=
  ⟨rfl,
    (alloc_from_pool_only demoCfg fifoPolicy (fun _ => 0) demoProc0 2 [0, 1] [] rfl rfl).1,
    by decide⟩

/-- C17 fails as stated.  With a frame-number field of one bit, `demoProcThree` (RAM pool
`0, 1, 2`) maps three pages at page 0 and `vm_map_ram` returns 0.  Page 0 is paired with
frame 2, the frame taken last, but `SETVAL` keeps only the bits of the field: the entry
of page 0 decodes to `Resident 0`, not `Resident 2`, and pages 0 and 2 both name
frame 0. -/
theorem pairing_counterexample :
    tinyCfg.WF ∧
    demoProcThree.mram.free_fp_list = [0, 1, 2] ∧
    vm_map_ram tinyCfg fifoPolicy (fun _ => 0) demoProcThree 0 12 0 3 ⟨0, 0⟩ =
      some (0, ⟨0, 12⟩,
        { demoProcThree with
          mram := ⟨[1, 2, 3, 4, 5, 6, 7, 8, 9, 10, 11, 12], 12, 1, 0, []⟩
          mm := ⟨[2147483648, 2147483649, 2147483648, 0], [2, 1, 0]⟩ }) ∧
    decode tinyCfg 2147483648 = PageTableEntry.Resident 0 ∧
    decode tinyCfg 2147483648 ≠ PageTableEntry.Resident 2 ∧
    (pte_set_fpn tinyCfg 0 2).2 = 2147483648 := by
  decide

/-- C17, amended.  Pairing order of allocator and mapper.  `alloc_pages_range` prepends, so the
frame taken last is at the head of the list, and `vmap_page_range` consumes the list
from the head while the pages ascend.  Hence, when the RAM pool begins with the frames
`fs = f0, .., f(n-1)`, each fitting the frame-number field, and the pages `p .. p+n-1`
are inside the directory, `vm_map_ram` of `n` pages at base page `p` returns 0, leaves
page `p+i` resident in frame `f(n-1-i)` for every `i < n`, and leaves the RAM pool
equal to the old pool without `fs`. -/
theorem vm_map_ram_pairs_in_reverse (c : PagingCfg) (hc : c.WF) (policy : VictimPolicy)
    (junk : Nat → BYTE) (caller : pcb_t) (astart aend mapstart n : Int) (rg : vm_rg_struct)
    (fs rest : List Int) (hpool : caller.mram.free_fp_list = fs ++ rest)
    (hlen : (fs.length : Int) = n)
    (hfit : ∀ f ∈ fs, 0 ≤ f ∧ f < fieldCard c.PAGING_PTE_FPN_HIBIT c.PAGING_PTE_FPN_LOBIT)
    (hin : PAGING_PGN c mapstart + fs.length ≤ caller.mm.pgd.length) :
    ∃ caller1 : pcb_t,
      vm_map_ram c policy junk caller astart aend mapstart n rg =
        some (0, ⟨mapstart, int32 (mapstart + int32 (n * (c.PAGING_PAGESZ : Int)))⟩, caller1) ∧
      (∀ i, i < fs.length →
        (caller1.mm.pgd[PAGING_PGN c mapstart + i]?).map (decode c) =
          (fs[fs.length - 1 - i]?).map fun f => PageTableEntry.Resident f.toNat) ∧
      caller1.mram.free_fp_list = rest := by
  have hk : n.toNat = fs.length := by omega
  have hk0 : n.toNat = fs.length + 0 := by omega
  have halloc : alloc_pages_range c policy junk caller n [] =
      some (0, { caller with mram := { caller.mram with free_fp_list := rest } },
        fs.reverse) := by
    unfold alloc_pages_range
    rw [hk0, alloc_loop_take c policy junk fs rest 0 caller [] hpool]
    simp [alloc_loop]
  obtain ⟨mm1, hrun, _, _, _, hent⟩ :=
    vmap_loop_spec c (PAGING_PGN c mapstart) n.toNat 0 caller.mm fs.reverse
      (by rw [List.length_reverse]; omega) (by omega)
  refine ⟨{ mram := { caller.mram with free_fp_list := rest },
            active_mswp := caller.active_mswp, mm := mm1 }, ?_, ?_, rfl⟩
  · unfold vm_map_ram
    rw [halloc]
    simp only [vmap_page_range, hrun]
    simp
  · intro i hi
    have h1 := hent i (by omega)
    rw [Nat.add_zero] at h1
    simp only
    rw [h1, List.getElem?_reverse hi]
    have hj : fs.length - 1 - i < fs.length := by omega
    rw [List.getElem?_eq_getElem hj]
    simp only [Option.map_some', pte_set_fpn_eq c hc]
    have hf := hfit fs[fs.length - 1 - i] (List.getElem_mem _)
    rw [decode_residentEntry c hc _ hf.1 hf.2]

/-- Instance of C17: `demoProc0` (RAM pool `0, 1`) maps two pages at page 0; page 0 gets
frame 1 and page 1 gets frame 0. -/
theorem vm_map_ram_pairs_in_reverse_witness :
    demoProc0.mram.free_fp_list = [0, 1] ++ [] ∧
    vm_map_ram demoCfg fifoPolicy (fun _ => 0) demoProc0 0 8 0 2 ⟨0, 0⟩ =
      some (0, ⟨0, 8⟩, demoProc1) ∧
    decode demoCfg 2147483649 = PageTableEntry.Resident 1 ∧
    decode demoCfg 2147483648 = PageTableEntry.Resident 0 ∧
    (∃ caller1 : pcb_t,
      vm_map_ram demoCfg fifoPolicy (fun _ => 0) demoProc0 0 8 0 2 ⟨0, 0⟩ =
        some (0, ⟨0, int32 (0 + int32 (2 * (demoCfg.PAGING_PAGESZ : Int)))⟩, caller1) ∧
      caller1.mram.free_fp_list = []) :=
  have h := vm_map_ram_pairs_in_reverse demoCfg demoCfg_WF fifoPolicy (fun _ => 0) demoProc0
    0 8 0 2 ⟨0, 0⟩ [0, 1] [] rfl rfl (by decide) (by decide)
  ⟨rfl, by decide, by decide, by decide, h.imp fun _ hc => ⟨hc.1, hc.2.2⟩⟩

end OsMm
